/-
  Verification of the dev-mcps protocol bridges (shallow embedding).

  The repository contains four Rust bridge programs (LSP, DAP, LSIF, agent
  orchestrator).  This file embeds the pure decision logic of those programs
  in Lean, translated function-by-function from the Rust sources:

    * src/dap/src/main.rs, src/dap/src/da.rs, src/dap/src/mcp.rs
    * src/lsif/src/lsif.rs
    * src/lsp/src/ls.rs, src/lsp/src/main.rs
    * src/orchestrator/src/codex.rs

  JSON values are modelled by an inductive `Json` type; serde_json objects
  become association lists (the claims never build objects with duplicate
  keys).  serde_json numbers are modelled as integers: every number a claim
  touches is an i64 in the source.  Process management (spawning, pipes,
  timeouts) is modelled by explicit state passing; the wire traffic a call
  produces is collected in an explicit frame log.
-/
import Mathlib

/-! ## A model of serde_json values -/

inductive Json where
  | null : Json
  | bool : Bool → Json
  | num : Int → Json
  | str : String → Json
  | arr : List Json → Json
  | obj : List (String × Json) → Json
deriving Repr, BEq

namespace Json

/-- Association-list lookup, first match wins: `serde_json::Map::get`. -/
def alookup (k : String) : List (String × Json) → Option Json
  | [] => none
  | (k', v) :: rest => if k' = k then some v else alookup k rest

/-- `Value::get(key)` for objects (`None` on non-objects). -/
def get (v : Json) (k : String) : Option Json :=
  match v with
  | obj fields => alookup k fields
  | _ => none

/-- `Value::as_bool`. -/
def asBool : Json → Option Bool
  | bool b => some b
  | _ => none

/-- `Value::as_i64` (numbers are modelled as integers). -/
def asI64 : Json → Option Int
  | num n => some n
  | _ => none

/-- `Value::as_str`. -/
def asStr : Json → Option String
  | str s => some s
  | _ => none

/-- `Value::as_array`. -/
def asArr : Json → Option (List Json)
  | arr xs => some xs
  | _ => none

/-- `Value::as_object`. -/
def asObj : Json → Option (List (String × Json))
  | obj fields => some fields
  | _ => none

/-- Insert a key at the end of an object's field list
(`Map::insert` for a fresh key; the claims never overwrite). -/
def objInsert (fields : List (String × Json)) (k : String) (v : Json) :
    List (String × Json) :=
  fields ++ [(k, v)]

end Json

/-- `str::starts_with`, computed on the character lists (the byte-level
`String.startsWith` of the Lean runtime does not reduce in the kernel). -/
def strStartsWith (s p : String) : Bool := p.toList.isPrefixOf s.toList

/-! ## DAP bridge (src/dap)

The DAP bridge turns structured tool calls into Debug Adapter Protocol
requests.  `dapCatalog` is `tools()` from src/dap/src/main.rs restricted to
the tool names (the descriptors' schemas play no role in the claims);
`filterToolsByCapabilities` is `filter_tools_by_capabilities`;
`handleStructuredCall` is the pure request-building part of
`handle_structured_call`; `dapHandleResponse` is the response-classification
step of `DapAdapterManager::request` (src/dap/src/da.rs). -/

namespace Dap

/-- The fixed tool palette, in the order `tools()` constructs it
(src/dap/src/main.rs, lines 81-142). -/
def dapCatalog : List String :=
  ["dap_initialize", "dap_call", "dap_launch", "dap_attach",
   "dap_set_breakpoints", "dap_configuration_done", "dap_continue",
   "dap_next", "dap_step_in", "dap_step_out", "dap_threads",
   "dap_stack_trace", "dap_scopes", "dap_variables", "dap_evaluate",
   "dap_disconnect"]

/-- The unconditional entries of the `allowed` set built by
`filter_tools_by_capabilities` (lines 151-169): every tool except
`dap_configuration_done`. -/
def dapAlwaysAllowed : List String :=
  ["dap_initialize", "dap_call", "dap_launch", "dap_attach",
   "dap_set_breakpoints", "dap_continue", "dap_next", "dap_step_in",
   "dap_step_out", "dap_threads", "dap_stack_trace", "dap_scopes",
   "dap_variables", "dap_evaluate", "dap_disconnect"]

/-- `filter_tools_by_capabilities` (src/dap/src/main.rs, lines 145-180):
with no capability record everything is advertised; otherwise
`dap_configuration_done` joins the allowed set only when the record's
`supportsConfigurationDoneRequest` is the boolean `true`. -/
def filterToolsByCapabilities (all : List String) (caps : Option Json) :
    List String :=
  match caps with
  | none => all
  | some c =>
    let o := (c.asObj).getD []
    let flag := ((Json.alookup "supportsConfigurationDoneRequest" o).bind
        Json.asBool).getD false
    let allowed := if flag then dapAlwaysAllowed ++ ["dap_configuration_done"]
      else dapAlwaysAllowed
    all.filter (fun t => allowed.contains t)

/-- Error payloads of the rmcp `ErrorData` kind used by the bridge:
`invalid_params` carries code -32602, `method_not_found` code -32601,
`internal_error` code -32603. -/
structure ErrorData where
  code : Int
  message : String
  data : Option Json
deriving Repr

def invalidParams (message : String) (data : Option Json) : ErrorData :=
  ⟨-32602, message, data⟩

def methodNotFound : ErrorData :=
  ⟨-32601, "Method not found", none⟩

/-- `require_i64` (src/dap/src/main.rs, lines 332-336). -/
def requireI64 (args : List (String × Json)) (key : String) :
    Except ErrorData Int :=
  match (Json.alookup key args).bind Json.asI64 with
  | some n => Except.ok n
  | none => Except.error (invalidParams ("Missing required field: " ++ key) none)

/-- The `(command, payload)` construction step of `handle_structured_call`
(src/dap/src/main.rs, lines 190-320).  A successful result is the downstream
DAP command name and its arguments object; an error is returned before any
downstream request is issued. -/
def handleStructuredCall (tool : String) (args : List (String × Json)) :
    Except ErrorData (String × Json) :=
  if tool = "dap_launch" ∨ tool = "dap_attach" then
    match Json.alookup "arguments" args with
    | none =>
        Except.error (invalidParams "Missing required field: arguments" none)
    | some arguments =>
        Except.ok (if tool = "dap_launch" then "launch" else "attach", arguments)
  else if tool = "dap_set_breakpoints" then
    match Json.alookup "source" args with
    | none => Except.error (invalidParams "Missing required field: source" none)
    | some source =>
        let breakpoints :=
          match Json.alookup "breakpoints" args with
          | some b => some b
          | none =>
            match (Json.alookup "lines" args).bind Json.asArr with
            | some lines =>
                some (Json.arr ((lines.filterMap Json.asI64).map
                  (fun line => Json.obj [("line", Json.num line)])))
            | none => none
        let fields := [("source", source),
          ("breakpoints", breakpoints.getD (Json.arr []))]
        let fields :=
          match Json.alookup "sourceModified" args with
          | some sm => Json.objInsert fields "sourceModified" sm
          | none => fields
        Except.ok ("setBreakpoints", Json.obj fields)
  else if tool = "dap_configuration_done" then
    Except.ok ("configurationDone", Json.obj [])
  else if tool = "dap_continue" then
    (requireI64 args "threadId").map
      (fun t => ("continue", Json.obj [("threadId", Json.num t)]))
  else if tool = "dap_next" then
    (requireI64 args "threadId").map
      (fun t => ("next", Json.obj [("threadId", Json.num t)]))
  else if tool = "dap_step_in" then
    (requireI64 args "threadId").map
      (fun t => ("stepIn", Json.obj [("threadId", Json.num t)]))
  else if tool = "dap_step_out" then
    (requireI64 args "threadId").map
      (fun t => ("stepOut", Json.obj [("threadId", Json.num t)]))
  else if tool = "dap_threads" then
    Except.ok ("threads", Json.obj [])
  else if tool = "dap_stack_trace" then
    (requireI64 args "threadId").map (fun t =>
      let fields := [("threadId", Json.num t)]
      let fields := match Json.alookup "startFrame" args with
        | some sf => Json.objInsert fields "startFrame" sf
        | none => fields
      let fields := match Json.alookup "levels" args with
        | some l => Json.objInsert fields "levels" l
        | none => fields
      ("stackTrace", Json.obj fields))
  else if tool = "dap_scopes" then
    (requireI64 args "frameId").map
      (fun f => ("scopes", Json.obj [("frameId", Json.num f)]))
  else if tool = "dap_variables" then
    (requireI64 args "variablesReference").map
      (fun v => ("variables", Json.obj [("variablesReference", Json.num v)]))
  else if tool = "dap_evaluate" then
    match (Json.alookup "expression" args).bind Json.asStr with
    | none =>
        Except.error (invalidParams "Missing required field: expression" none)
    | some expression =>
        let fields := [("expression", Json.str expression)]
        let fields := match Json.alookup "frameId" args with
          | some fid => Json.objInsert fields "frameId" fid
          | none => fields
        let fields := match Json.alookup "context" args with
          | some ctx => Json.objInsert fields "context" ctx
          | none => fields
        Except.ok ("evaluate", Json.obj fields)
  else if tool = "dap_disconnect" then
    let fields : List (String × Json) := []
    let fields := match Json.alookup "terminateDebuggee" args with
      | some td => Json.objInsert fields "terminateDebuggee" td
      | none => fields
    let fields := match Json.alookup "restart" args with
      | some r => Json.objInsert fields "restart" r
      | none => fields
    Except.ok ("disconnect", Json.obj fields)
  else
    Except.error (invalidParams ("Unsupported dap tool: " ++ tool)
      (some (Json.obj [("tool", Json.str tool)])))

/-- The dispatch guard of `call_tool_impl` (src/dap/src/mcp.rs, lines
17-57): names without the `dap_` prefix are rejected with a
method-not-found error before any structured handling; `dap_initialize`
and `dap_call` are handled separately (modelled only as far as the claims
need: neither is an unknown tool), and everything else goes through
`handleStructuredCall`. -/
def callToolDispatch (name : String) (args : List (String × Json)) :
    Except ErrorData (String × Json) :=
  if ¬ strStartsWith name "dap_" then Except.error methodNotFound
  else if name = "dap_initialize" then Except.ok ("initialize", Json.obj [])
  else if name = "dap_call" then
    match (Json.alookup "command" args).bind Json.asStr with
    | none => Except.error (invalidParams "Missing required field: command" none)
    | some command =>
        Except.ok (command, (Json.alookup "arguments" args).getD (Json.obj []))
  else handleStructuredCall name args

/-- Classification of one framed DAP message inside the read loop of
`DapAdapterManager::request` (src/dap/src/da.rs, lines 152-170): `none`
means the loop keeps reading (an event, or a response for a different
request); `some` is the operation's outcome. -/
def dapHandleResponse (seq : Int) (v : Json) : Option (Except String Json) :=
  if (v.get "type").bind Json.asStr = some "response" ∧
      (v.get "request_seq").bind Json.asI64 = some seq then
    let ok := ((v.get "success").bind Json.asBool).getD true
    if ok then
      some (Except.ok ((v.get "body").getD (Json.obj [])))
    else
      some (Except.error
        (((v.get "message").bind Json.asStr).getD "dap error"))
  else none

end Dap

/-! ## Association lists with unique keys

Rust `HashMap`s whose iteration order does not matter are modelled as
association lists; `assocInsert` mirrors `HashMap::insert` (replacing any
previous binding) and `assocErase` mirrors `HashMap::remove`. -/

section Assoc

variable {κ α : Type} [DecidableEq κ]

def assocLookup (k : κ) : List (κ × α) → Option α
  | [] => none
  | (k', v) :: rest => if k' = k then some v else assocLookup k rest

def assocErase (k : κ) (l : List (κ × α)) : List (κ × α) :=
  l.filter (fun p => p.1 ≠ k)

def assocInsert (k : κ) (v : α) (l : List (κ × α)) : List (κ × α) :=
  (k, v) :: assocErase k l

end Assoc

/-! ## LSIF bridge (src/lsif/src/lsif.rs)

Positions and spans are `u32` pairs in the source.  The span-length measure
in `find_best_range` subtracts `u32`s and multiplies into an `i64`; for the
spans reachable through `contains` the subtractions cannot underflow on the
line component, and the model uses wrapping (release-mode) semantics for
the character component, exactly as `cur_len`/`prev_len` are computed.
`HashMap` iteration over `ranges` is modelled as the order of the `ranges`
list; the claims are proved for every such order. -/

namespace Lsif

structure Pos where
  line : Nat
  character : Nat
deriving Repr, DecidableEq

structure Span where
  start : Pos
  stop : Pos
deriving Repr, DecidableEq

/-- `pos_leq` (src/lsif/src/lsif.rs, lines 20-22). -/
def posLeq (a b : Pos) : Prop :=
  a.line < b.line ∨ (a.line = b.line ∧ a.character ≤ b.character)

/-- `pos_lt` (lines 23-25). -/
def posLt (a b : Pos) : Prop :=
  a.line < b.line ∨ (a.line = b.line ∧ a.character < b.character)

/-- `contains` (lines 26-28): half-open containment `start ≤ p < end`. -/
def contains (s : Span) (p : Pos) : Prop :=
  posLeq s.start p ∧ posLt p s.stop

instance (a b : Pos) : Decidable (posLeq a b) := by unfold posLeq; infer_instance
instance (a b : Pos) : Decidable (posLt a b) := by unfold posLt; infer_instance
instance (s : Span) (p : Pos) : Decidable (contains s p) := by
  unfold contains; infer_instance

/-- Wrapping `u32` subtraction (`a - b` in release mode). -/
def u32sub (a b : Nat) : Nat := (a + 2 ^ 32 - b % 2 ^ 32) % 2 ^ 32

/-- The length measure `(end.line - start.line) * 1_000_000 +
(end.character - start.character)` from `find_best_range` (lines 237-240). -/
def spanLen (s : Span) : Nat :=
  u32sub s.stop.line s.start.line * 1000000 +
    u32sub s.stop.character s.start.character

/-- `RefItems` (lines 49-54). -/
structure RefItems where
  definitions : List Int
  references : List Int
  declarations : List Int
deriving Repr

/-- The query-relevant fields of `LSIFIndex` (lines 30-47). -/
structure LSIFIndex where
  documents : List (Int × String)
  docByUri : List (String × Int)
  ranges : List (Int × Span)
  rangeDoc : List (Int × Int)
  resultSets : List Int
  rangeToResultset : List (Int × Int)
  rsetToDef : List (Int × Int)
  rsetToRef : List (Int × Int)
  rangeToDef : List (Int × Int)
  rangeToRef : List (Int × Int)
  defItems : List (Int × List Int)
  refItems : List (Int × RefItems)

/-- One step of the best-candidate fold inside `find_best_range`
(lines 230-248). -/
def bestStep (rangeDoc : List (Int × Int)) (did : Int) (pos : Pos)
    (best : Option (Int × Span)) (p : Int × Span) : Option (Int × Span) :=
  match assocLookup p.1 rangeDoc with
  | some docId =>
    if docId = did ∧ contains p.2 pos then
      match best with
      | none => some p
      | some prev => if spanLen p.2 < spanLen prev.2 then some p else best
    else best
  | none => best

/-- `LSIFIndex::find_best_range` (lines 227-250). -/
def findBestRange (idx : LSIFIndex) (uri : String) (pos : Pos) : Option Int :=
  match assocLookup uri idx.docByUri with
  | none => none
  | some did =>
    (idx.ranges.foldl (bestStep idx.rangeDoc did pos) none).map Prod.fst

/-- `LSIFIndex::resultset_for_range` (lines 252-257). -/
def resultsetForRange (idx : LSIFIndex) (rid : Int) : Option Int :=
  (assocLookup rid idx.rangeToResultset).filter (fun i => idx.resultSets.contains i)

/-- `LSIFIndex::ranges_for_result` (lines 259-272). -/
def rangesForResult (idx : LSIFIndex) (resId : Int) : List (String × Span) :=
  match assocLookup resId idx.defItems with
  | none => []
  | some ids =>
    ids.filterMap (fun rid =>
      match assocLookup rid idx.ranges, assocLookup rid idx.rangeDoc with
      | some span, some docId =>
        (assocLookup docId idx.documents).map (fun uri => (uri, span))
      | _, _ => none)

/-- `LSIFIndex::ranges_for_refs` (lines 274-295). -/
def rangesForRefs (idx : LSIFIndex) (resId : Int) (includeDecls : Bool) :
    List (String × Span) :=
  match assocLookup resId idx.refItems with
  | none => []
  | some items =>
    let push := fun (ids : List Int) =>
      ids.filterMap (fun rid =>
        match assocLookup rid idx.ranges, assocLookup rid idx.rangeDoc with
        | some span, some docId =>
          (assocLookup docId idx.documents).map (fun uri => (uri, span))
        | _, _ => none)
    push items.references ++
      (if includeDecls then push items.definitions ++ push items.declarations
       else [])

/-- `query_definition` (lines 346-370), with the location list in place of
its JSON rendering. -/
def queryDefinition (idx : LSIFIndex) (uri : String) (line character : Nat) :
    Except String (List (String × Span)) :=
  let pos : Pos := ⟨line, character⟩
  match findBestRange idx uri pos with
  | none => Except.error "no LSIF range at position"
  | some rid =>
    let rset := resultsetForRange idx rid
    let defRes := match rset.bind (fun rs => assocLookup rs idx.rsetToDef) with
      | some d => some d
      | none => assocLookup rid idx.rangeToDef
    match defRes with
    | some defId => Except.ok (rangesForResult idx defId)
    | none =>
      match (match rset.bind (fun rs => assocLookup rs idx.rsetToRef) with
             | some r => some r
             | none => assocLookup rid idx.rangeToRef) with
      | some refId => Except.ok (rangesForRefs idx refId true)
      | none => Except.ok []

/-- Candidate ranges are ranges of the queried document containing the
position. -/
def isCand (rangeDoc : List (Int × Int)) (did : Int) (pos : Pos)
    (p : Int × Span) : Prop :=
  assocLookup p.1 rangeDoc = some did ∧ contains p.2 pos

instance (rd : List (Int × Int)) (did : Int) (pos : Pos) (p : Int × Span) :
    Decidable (isCand rd did pos p) := by unfold isCand; infer_instance

/-- Range r1 `(0,0)-(0,10)` of the specification's LSIF scenario. -/
def exampleR1 : Span := ⟨⟨0, 0⟩, ⟨0, 10⟩⟩

/-- Range r2 `(0,2)-(0,6)` of the specification's LSIF scenario. -/
def exampleR2 : Span := ⟨⟨0, 2⟩, ⟨0, 6⟩⟩

/-- The graph of the specification's LSIF scenario: document d1 (id 1) at
`file:///f` containing ranges r1 (id 2) and r2 (id 3), each wired through
its own result set (ids 10, 11) to a definition result (ids 20, 21) whose
item edge points back at the range itself.  The `ranges` list — the
`HashMap` iteration order — is a parameter. -/
def exampleIdx (rs : List (Int × Span)) : LSIFIndex where
  documents := [(1, "file:///f")]
  docByUri := [("file:///f", 1)]
  ranges := rs
  rangeDoc := [(2, 1), (3, 1)]
  resultSets := [10, 11]
  rangeToResultset := [(2, 10), (3, 11)]
  rsetToDef := [(10, 20), (11, 21)]
  rsetToRef := []
  rangeToDef := []
  rangeToRef := []
  defItems := [(20, [2]), (21, [3])]
  refItems := []

end Lsif

/-! ## Agent orchestrator approvals (src/orchestrator/src/codex.rs)

The approvals subsystem of `Manager`.  An approval record is a oneshot
channel: `spawn_read_loop` (lines 441-467) inserts the sender into the
shared `approvals` map under `agentId:requestId` and waits on the receiver
with a 60-second timeout before writing the `{"decision": …}` reply
downstream; `decide_approval` (lines 561-568) removes the sender and fires
it.  State: `pending` maps a key to whether the read-loop receiver is still
waiting (`tokio::time::timeout` consumes — and on expiry drops — the
receiver); `written` logs the replies written downstream to the agent, in
order, as `(key, decision)` pairs. -/

namespace Codex

structure ApprovalsState where
  pending : List (String × Bool)
  written : List (String × String)
deriving Repr, DecidableEq

/-- Registration of an inbound `applyPatchApproval` / `execCommandApproval`
server request (codex.rs, lines 443-449): a fresh channel's sender is
inserted under the key; the read loop then waits on the receiver. -/
def registerApproval (s : ApprovalsState) (key : String) : ApprovalsState :=
  { s with pending := assocInsert key true s.pending }

/-- `Manager::decide_approval` (lines 561-568): remove the sender under the
key and fire it, ignoring the send result, answering `Ok(true)`; an absent
key is an error.  When the receiver is still waiting, the read loop wakes
with the decision and writes the `{"decision": …}` reply downstream
(line 460-467); when it was dropped by the timeout, the decision goes
nowhere. -/
def decideApproval (s : ApprovalsState) (key decision : String) :
    Except String Bool × ApprovalsState :=
  match assocLookup key s.pending with
  | some alive =>
    (Except.ok true,
     { pending := assocErase key s.pending,
       written := if alive then s.written ++ [(key, decision)] else s.written })
  | none => (Except.error ("approval key not found: " ++ key), s)

/-- Expiry of the 60-second wait (line 460-467): the receiver is dropped,
`"deny"` is substituted and the reply is written downstream.  The
`approvals` map is not touched by this branch. -/
def timeoutApproval (s : ApprovalsState) (key : String) : ApprovalsState :=
  if assocLookup key s.pending = some true then
    { pending := assocInsert key false s.pending,
      written := s.written ++ [(key, "deny")] }
  else s

end Codex

/-! ## LSP framing and auto-detection (src/lsp/src/ls.rs)

The helper's standard output is modelled as a list of characters (the
payloads the claims touch are ASCII, so characters stand in for bytes; the
UTF-8 validation of `read_content_length_message` cannot fail in this
model).  `readLine` is `BufRead::read_line` — it returns everything up to
and including the first newline, or the whole remainder at end of stream —
and each reader returns the consumed body together with the unread rest of
the stream.  The JSON parse that `read_message` applies to the body is
orthogonal to the claims and left out: the model returns the raw body. -/

namespace Ls

inductive Framing where
  | contentLength : Framing
  | newline : Framing
deriving Repr, DecidableEq

inductive FramingPreference where
  | auto : FramingPreference
  | contentLength : FramingPreference
  | newline : FramingPreference
deriving Repr, DecidableEq

/-- `FramingPreference::initial_read_mode` (src/lsp/src/ls.rs, lines
45-51). -/
def initialReadMode : FramingPreference → Option Framing
  | .auto => none
  | .contentLength => some .contentLength
  | .newline => some .newline

/-- `LanguageServerManager::current_write_mode` (lines 198-204). -/
def currentWriteMode (writePref : FramingPreference)
    (readMode : Option Framing) : Framing :=
  match writePref with
  | .contentLength => .contentLength
  | .newline => .newline
  | .auto => readMode.getD .contentLength

/-- `BufRead::read_line`: the first line including its terminator, plus the
unread rest; at end of stream the line is empty (the `n == 0` case). -/
def readLine : List Char → List Char × List Char
  | [] => ([], [])
  | c :: rest =>
    if c = '\n' then ([c], rest)
    else
      let p := readLine rest
      (c :: p.1, p.2)

theorem readLine_length_lt (s : List Char) (hs : s ≠ []) :
    (readLine s).2.length < s.length := by
  induction s with
  | nil => exact absurd rfl hs
  | cons c rest ih =>
    by_cases hc : c = '\n'
    · simp [readLine, hc]
    · simp only [readLine, if_neg hc]
      cases rest with
      | nil => simp [readLine]
      | cons d rest' => exact Nat.lt_succ_of_lt (ih (by simp))

/-- `trim_end_matches(['\r', '\n'])`. -/
def trimEndCRLF (l : List Char) : List Char :=
  (l.reverse.dropWhile (fun c => c = '\r' ∨ c = '\n')).reverse

/-- ASCII lowercasing of one character (`to_ascii_lowercase`). -/
def asciiLower (c : Char) : Char :=
  if 'A' ≤ c ∧ c ≤ 'Z' then Char.ofNat (c.toNat + 32) else c

/-- Strip a literal prefix from a character list, yielding the remainder. -/
def stripPfx : List Char → List Char → Option (List Char)
  | [], s => some s
  | _ :: _, [] => none
  | p :: ps, c :: cs => if c = p then stripPfx ps cs else none

/-- `str::trim` (whitespace here as the source's payloads use it: ASCII
space, tab, carriage return, newline). -/
def trimWs (l : List Char) : List Char :=
  let ws := fun c => c = ' ' ∨ c = '\t' ∨ c = '\r' ∨ c = '\n'
  ((l.dropWhile ws).reverse.dropWhile ws).reverse

/-- `str::parse::<usize>`: an optional leading plus sign followed by at
least one digit. -/
def parseUsize (s : List Char) : Option Nat :=
  let t := match s with
    | '+' :: rest => rest
    | _ => s
  if t ≠ [] ∧ t.all Char.isDigit then
    some (t.foldl (fun n c => n * 10 + (c.toNat - '0'.toNat)) 0)
  else none

/-- `LanguageServerManager::parse_content_length` (lines 337-341). -/
def parseContentLength (line : List Char) : Option Nat :=
  (stripPfx "content-length:".toList (line.map asciiLower)).bind
    (fun rest => parseUsize (trimWs rest))

/-- The header loop of `read_content_length_message` (lines 354-369):
read lines until a blank one, remembering the first `Content-Length`
value. -/
def clLoop (contentLength : Option Nat) (s : List Char) :
    Except String (Option Nat × List Char) :=
  if hs : s = [] then Except.error "EOF from language server"
  else
    let p := readLine s
    if p.1 = ['\r', '\n'] ∨ p.1 = ['\n'] then Except.ok (contentLength, p.2)
    else
      clLoop
        (match contentLength with
         | none => parseContentLength p.1
         | some n => some n) p.2
termination_by s.length
decreasing_by exact readLine_length_lt s hs

/-- `LanguageServerManager::read_content_length_message` (lines 343-374):
an optional already-consumed first header line, then headers to the blank
line, then exactly `len` payload characters. -/
def readContentLengthMessage (firstLine : Option (List Char))
    (s : List Char) : Except String (List Char × List Char) :=
  match clLoop (firstLine.bind parseContentLength) s with
  | Except.error e => Except.error e
  | Except.ok (none, _) => Except.error "missing Content-Length"
  | Except.ok (some len, rest) =>
    if rest.length < len then Except.error "EOF from language server"
    else Except.ok (rest.take len, rest.drop len)

/-- `LanguageServerManager::read_newline_message` (lines 376-389). -/
def readNewlineMessage (firstLine : Option (List Char)) (s : List Char) :
    Except String (List Char × List Char) :=
  match firstLine with
  | some line => Except.ok (trimEndCRLF line, s)
  | none =>
    if s = [] then Except.error "EOF from language server"
    else
      let p := readLine s
      Except.ok (trimEndCRLF p.1, p.2)

/-- The `first_line == None` loop of `read_detected_message` (lines
408-429): skip empty lines; a line opening with a brace or bracket is a
newline-framed body; anything else is the first header of a
length-prefixed read. -/
def readDetectedCore (s : List Char) :
    Except String ((List Char × Framing) × List Char) :=
  if hs : s = [] then Except.error "EOF from language server"
  else
    let p := readLine s
    let trimmed := trimEndCRLF p.1
    if trimmed = [] then readDetectedCore p.2
    else if trimmed.head? = some '{' ∨ trimmed.head? = some '[' then
      Except.ok ((trimmed, Framing.newline), p.2)
    else
      match readContentLengthMessage (some p.1) p.2 with
      | Except.error e => Except.error e
      | Except.ok (body, rest) => Except.ok ((body, Framing.contentLength), rest)
termination_by s.length
decreasing_by exact readLine_length_lt s hs

/-- `LanguageServerManager::read_detected_message` (lines 391-430). -/
def readDetectedMessage (firstLine : Option (List Char)) (s : List Char) :
    Except String ((List Char × Framing) × List Char) :=
  match firstLine with
  | some line =>
    let trimmed := trimEndCRLF line
    if trimmed = [] then readDetectedCore s
    else if trimmed.head? = some '{' ∨ trimmed.head? = some '[' then
      Except.ok ((trimmed, Framing.newline), s)
    else
      match readContentLengthMessage (some line) s with
      | Except.error e => Except.error e
      | Except.ok (body, rest) => Except.ok ((body, Framing.contentLength), rest)
  | none => readDetectedCore s

/-- The framing-relevant state of a `LanguageServerManager`. -/
structure MgrFraming where
  writePref : FramingPreference
  readMode : Option Framing
deriving Repr, DecidableEq

/-- `LanguageServerManager::read_message` (lines 432-457), returning the
raw body, the updated framing state, and the unread stream. -/
def readMessage (m : MgrFraming) (s : List Char) :
    Except String (List Char × MgrFraming × List Char) :=
  match m.readMode with
  | some Framing.contentLength =>
    match readContentLengthMessage none s with
    | Except.error e => Except.error e
    | Except.ok (body, rest) => Except.ok (body, m, rest)
  | some Framing.newline =>
    match readNewlineMessage none s with
    | Except.error e => Except.error e
    | Except.ok (body, rest) => Except.ok (body, m, rest)
  | none =>
    match readDetectedMessage none s with
    | Except.error e => Except.error e
    | Except.ok ((body, framing), rest) =>
      Except.ok (body, { m with readMode := some framing }, rest)

end Ls

/-! ## A model of the url crate (WHATWG file URLs)

`LanguageServerPool::normalize_uri`, `path_from_uri` and
`extension_from_uri` delegate to the `url` crate.  This namespace models
the crate's behaviour on `file:` URLs as the bridges use it (Unix path
semantics, characters standing in for bytes):

  * `urlParseFile` is `Url::parse` restricted to its observable outcome in
    `normalize_uri`: `some` exactly when the input parses as a `file:`-
    scheme URL (any other outcome — parse failure or a different scheme —
    falls through to the path branch, so both collapse to `none`).
    It follows the WHATWG basic parser: strip tabs/newlines and
    surrounding C0-or-space, lowercase the scheme, treat backslashes as
    slashes, lowercase the host and drop `localhost`, percent-encode the
    path/query/fragment encode sets, pop `..` segments and drop `.`
    segments.  (The WHATWG parser also treats percent-encoded dots as dot
    segments; that corner is not modelled and not exercised by any claim.)
  * `fileUrlFromPath` is `Url::from_file_path` (Unix): percent-encode each
    `Path::components` element with the PATH_SEGMENT set.  Note that it
    does not resolve `..` components and does not encode backslashes.
  * `urlToFilePath` is `Url::to_file_path` (Unix): percent-decode the
    segments, requiring an empty host. -/

namespace UrlM

/-- ASCII lowercasing of one character (`to_ascii_lowercase`). -/
def lowerc (c : Char) : Char :=
  if 'A' ≤ c ∧ c ≤ 'Z' then Char.ofNat (c.toNat + 32) else c

/-- The C0-control-or-delete set of the percent-encoding CONTROLS. -/
def isCtl (c : Char) : Bool := c.toNat < 0x20 ∨ c.toNat = 0x7f

/-- The fragment percent-encode set. -/
def fragSet (c : Char) : Bool :=
  isCtl c ∨ c = ' ' ∨ c = '"' ∨ c = '<' ∨ c = '>' ∨ c = '`'

/-- The path percent-encode set. -/
def pathSet (c : Char) : Bool :=
  fragSet c ∨ c = '#' ∨ c = '?' ∨ c = '\x7b' ∨ c = '\x7d'

/-- The PATH_SEGMENT percent-encode set of `Url::from_file_path`. -/
def pathSegSet (c : Char) : Bool := pathSet c ∨ c = '/' ∨ c = '%'

/-- The special-scheme query percent-encode set. -/
def querySet (c : Char) : Bool :=
  isCtl c ∨ c = ' ' ∨ c = '"' ∨ c = '#' ∨ c = '<' ∨ c = '>' ∨ c = '\x27'

/-- Forbidden domain code points (a host containing one fails to parse). -/
def forbiddenHostChar (c : Char) : Bool :=
  isCtl c ∨ c = ' ' ∨ c = '#' ∨ c = '/' ∨ c = ':' ∨ c = '<' ∨ c = '>' ∨
    c = '?' ∨ c = '@' ∨ c = '[' ∨ c = '\\' ∨ c = ']' ∨ c = '^' ∨ c = '|' ∨
    c = '%'

/-- Uppercase hexadecimal digit of a value below 16. -/
def hexUpper (n : Nat) : Char :=
  if n < 10 then Char.ofNat ('0'.toNat + n) else Char.ofNat ('A'.toNat + n - 10)

/-- Percent-encode one character. -/
def pctEncodeChar (c : Char) : List Char :=
  ['%', hexUpper (c.toNat / 16 % 16), hexUpper (c.toNat % 16)]

/-- Percent-encode the characters of an encode set. -/
def pctEncode (inSet : Char → Bool) : List Char → List Char
  | [] => []
  | c :: rest =>
    (if inSet c then pctEncodeChar c else [c]) ++ pctEncode inSet rest

def hexVal (c : Char) : Option Nat :=
  if '0' ≤ c ∧ c ≤ '9' then some (c.toNat - '0'.toNat)
  else if 'a' ≤ c ∧ c ≤ 'f' then some (c.toNat - 'a'.toNat + 10)
  else if 'A' ≤ c ∧ c ≤ 'F' then some (c.toNat - 'A'.toNat + 10)
  else none

/-- Percent-decoding (invalid sequences pass through unchanged). -/
def pctDecode : List Char → List Char
  | [] => []
  | '%' :: a :: b :: rest =>
    match hexVal a, hexVal b with
    | some x, some y => Char.ofNat (x * 16 + y) :: pctDecode rest
    | _, _ => '%' :: pctDecode (a :: b :: rest)
  | c :: rest => c :: pctDecode rest

/-- WHATWG input preprocessing: remove tabs and newlines everywhere, strip
C0 controls and spaces at both ends. -/
def preClean (l : List Char) : List Char :=
  let l := l.filter (fun c => ¬ (c = '\t' ∨ c = '\n' ∨ c = '\r'))
  let lead := fun (c : Char) => decide (c.toNat ≤ 0x20)
  ((l.dropWhile lead).reverse.dropWhile lead).reverse

/-- Scheme recognition: a letter, then letters, digits, `+`, `-`, `.`,
then a colon; the scheme is lowercased.  Returns the scheme and the rest
after the colon. -/
def schemeAux (acc : List Char) : List Char → Option (List Char × List Char)
  | [] => none
  | c :: rest =>
    if c = ':' then some (acc, rest)
    else if c.isAlphanum ∨ c = '+' ∨ c = '-' ∨ c = '.' then
      schemeAux (acc ++ [lowerc c]) rest
    else none

def schemeSplit : List Char → Option (List Char × List Char)
  | [] => none
  | c :: rest =>
    if c.isAlpha then schemeAux [lowerc c] rest else none

/-- Slashes of the file-URL parser (backslash counts). -/
def isSlash (c : Char) : Bool := c = '/' ∨ c = '\\'

/-- Split a path on URL slashes (both kinds). -/
def splitSlashUrl : List Char → List (List Char)
  | [] => [[]]
  | c :: rest =>
    let r := splitSlashUrl rest
    if isSlash c then [] :: r
    else
      match r with
      | s :: ss => (c :: s) :: ss
      | [] => [[c]]

/-- Split a filesystem path on `/` only (Unix). -/
def splitSlashPath : List Char → List (List Char)
  | [] => [[]]
  | c :: rest =>
    let r := splitSlashPath rest
    if c = '/' then [] :: r
    else
      match r with
      | s :: ss => (c :: s) :: ss
      | [] => [[c]]

/-- Split at the first occurrence of a character. -/
def splitFirst (ch : Char) : List Char → List Char × Option (List Char)
  | [] => ([], none)
  | c :: rest =>
    if c = ch then ([], some rest)
    else
      let p := splitFirst ch rest
      (c :: p.1, p.2)

/-- A parsed `file:` URL in serialized (percent-encoded) form. -/
structure FileUrl where
  host : List Char
  segments : List (List Char)
  query : Option (List Char)
  fragment : Option (List Char)
deriving Repr, DecidableEq

/-- `Url::to_string` for a file URL. -/
def serializeUrl (u : FileUrl) : List Char :=
  "file://".toList ++ u.host ++
    (u.segments.flatMap (fun s => '/' :: s)) ++
    (match u.query with
     | some q => '?' :: q
     | none => []) ++
    (match u.fragment with
     | some f => '#' :: f
     | none => [])

/-- The WHATWG path state over raw segments: pop on `..`, skip `.`
(with the trailing-slash adjustments), percent-encode the rest. -/
def normSegsAux (acc : List (List Char)) : List (List Char) → List (List Char)
  | [] => acc
  | s :: rest =>
    if s = ['.', '.'] then
      match rest with
      | [] => acc.dropLast ++ [[]]
      | _ => normSegsAux acc.dropLast rest
    else if s = ['.'] then
      match rest with
      | [] => acc ++ [[]]
      | _ => normSegsAux acc rest
    else normSegsAux (acc ++ [pctEncode pathSet s]) rest

/-- Parse the path, query and fragment parts that follow the authority. -/
def parsePathQF (l : List Char) : List (List Char) × Option (List Char) ×
    Option (List Char) :=
  let pf := splitFirst '#' l
  let fragment := pf.2.map (pctEncode fragSet)
  let pq := splitFirst '?' pf.1
  let query := pq.2.map (pctEncode querySet)
  let stripped := match pq.1 with
    | c :: rest => if isSlash c then rest else pq.1
    | [] => []
  let segs := normSegsAux [] (splitSlashUrl stripped)
  (if segs = [] then [[]] else segs, query, fragment)

/-- Parse host and path of a `file://…` authority form. -/
def parseAuthority (l : List Char) : Option FileUrl :=
  let isDelim := fun c => isSlash c ∨ c = '?' ∨ c = '#'
  let hostRaw := l.takeWhile (fun c => ¬ isDelim c)
  let after := l.dropWhile (fun c => ¬ isDelim c)
  if hostRaw.any forbiddenHostChar then none
  else
    let host := hostRaw.map lowerc
    let host := if host = "localhost".toList then [] else host
    let pqf := parsePathQF after
    some ⟨host, pqf.1, pqf.2.1, pqf.2.2⟩

/-- `Url::parse` restricted to the observable outcome in `normalize_uri`:
`some` exactly for `file:`-scheme URLs. -/
def urlParseFile (l : List Char) : Option FileUrl :=
  let l := preClean l
  match schemeSplit l with
  | none => none
  | some (scheme, rest) =>
    if scheme ≠ "file".toList then none
    else
      match rest with
      | c0 :: c1 :: rest2 =>
        if isSlash c0 ∧ isSlash c1 then parseAuthority rest2
        else
          let pqf := parsePathQF rest
          some ⟨[], pqf.1, pqf.2.1, pqf.2.2⟩
      | _ =>
        let pqf := parsePathQF rest
        some ⟨[], pqf.1, pqf.2.1, pqf.2.2⟩

/-- `Path::is_absolute` (Unix). -/
def pathIsAbsolute (l : List Char) : Bool := l.head? = some '/'

/-- The `Path::components` of an absolute Unix path: split on `/`, drop
empty and `.` components (`..` components are kept). -/
def pathComponents (l : List Char) : List (List Char) :=
  (splitSlashPath l).filter (fun s => ¬ (s = [] ∨ s = ['.']))

/-- `Url::from_file_path` (Unix): requires an absolute path; each
component is percent-encoded with the PATH_SEGMENT set.  Dot-dot
components and backslashes pass through untouched. -/
def fileUrlFromPath (l : List Char) : Option FileUrl :=
  if pathIsAbsolute l then
    let segs := (pathComponents l).map (pctEncode pathSegSet)
    some ⟨[], if segs = [] then [[]] else segs, none, none⟩
  else none

/-- `Path::join` of a working directory and a relative path. -/
def joinPath (cwd p : List Char) : List Char := cwd ++ '/' :: p

/-- `LanguageServerPool::normalize_uri` (src/lsp/src/main.rs, lines
1133-1165), with the process working directory as a parameter. -/
def normalizeUri (cwd : List Char) (uri : List Char) : List Char :=
  match urlParseFile uri with
  | some u => serializeUrl u
  | none =>
    let abs := if pathIsAbsolute uri then uri else joinPath cwd uri
    match fileUrlFromPath abs with
    | some u => serializeUrl u
    | none => "file://".toList ++ abs

/-- `Url::to_file_path` (Unix): empty host required; percent-decode the
segments. -/
def urlToFilePath (u : FileUrl) : Option (List Char) :=
  if u.host = [] then
    some (u.segments.flatMap (fun s => '/' :: pctDecode s))
  else none

/-- `LanguageServerPool::path_from_uri` (lines 1094-1122, Unix branch). -/
def pathFromUri (uri : List Char) : List Char :=
  match (urlParseFile uri).bind urlToFilePath with
  | some p => p
  | none =>
    match Ls.stripPfx "file://".toList uri with
    | some stripped => stripped
    | none => uri

/-- The split at the last dot of a file name: the part after it, `none`
when there is no dot. -/
def lastDotSplit (name : List Char) : Option (List Char) :=
  let pre := name.reverse.takeWhile (fun c => ¬ c = '.')
  if pre.length = name.length then none else some pre.reverse

/-- `Path::extension` (Unix): the final component's part after its last
dot; `none` for dotless names, for hidden files whose only dot leads, and
for `..`. -/
def rustPathExtension (pathPart : List Char) : Option (List Char) :=
  match (pathComponents pathPart).getLast? with
  | none => none
  | some name =>
    if name = ['.', '.'] then none
    else
      match lastDotSplit name with
      | none => none
      | some ext =>
        if name.length = ext.length + 1 then none else some ext

/-- `LanguageServerPool::extension_from_uri` (lines 1079-1092):
`Path::extension` on the `file://`-stripped part, with a manual
last-segment `rsplit_once('.')` fallback; the result is lowercased. -/
def extensionFromUri (uri : List Char) : Option (List Char) :=
  let pathPart := (Ls.stripPfx "file://".toList uri).getD uri
  match rustPathExtension pathPart with
  | some e => some (e.map lowerc)
  | none =>
    let segment := ((splitSlashPath pathPart).getLast?).getD pathPart
    match lastDotSplit segment with
    | none => none
    | some e => some (e.map lowerc)

/-- Characters that may appear raw in a canonical path segment: nothing
from the path encode set and neither kind of slash. -/
def segChar (c : Char) : Bool := ¬ (pathSet c ∨ c = '/' ∨ c = '\\')

/-- A canonical path segment: not a dot segment, all characters raw-safe. -/
def segCanon (s : List Char) : Bool :=
  decide (¬ s = ['.']) && decide (¬ s = ['.', '.']) && s.all segChar

/-- A canonical host character: not forbidden and fixed by lowercasing. -/
def hostChar (c : Char) : Bool := !forbiddenHostChar c && decide (lowerc c = c)

/-- A file URL in the canonical form the parser produces: a non-empty
segment list of canonical segments, a clean lowercased non-`localhost`
host, and query and fragment free of their encode sets. -/
def canonicalFileUrl (u : FileUrl) : Bool :=
  decide (¬ u.segments = []) && u.segments.all segCanon &&
  u.host.all hostChar && decide (¬ u.host = "localhost".toList) &&
  (match u.query with
   | some q => q.all (fun c => !querySet c)
   | none => true) &&
  (match u.fragment with
   | some f => f.all (fun c => !fragSet c)
   | none => true)

/-- The serialized query tail: `?q` or nothing. -/
def qPart : Option (List Char) → List Char
  | some q => '?' :: q
  | none => []

/-- The serialized fragment tail: `#f` or nothing. -/
def fPart : Option (List Char) → List Char
  | some f => '#' :: f
  | none => []

/-- String-level wrapper for `normalize_uri`. -/
def normalizeUriS (cwd uri : String) : String :=
  String.mk (normalizeUri cwd.toList uri.toList)

/-- String-level wrapper for `path_from_uri`. -/
def pathFromUriS (uri : String) : String := String.mk (pathFromUri uri.toList)

/-- String-level wrapper for `extension_from_uri`. -/
def extensionFromUriS (uri : String) : Option String :=
  (extensionFromUri uri.toList).map String.mk

/-- String-level wrapper for `Path::extension` with lowercasing as
`build_did_open_params` applies it. -/
def rustPathExtensionS (path : String) : Option String :=
  (rustPathExtension path.toList).map (fun e => String.mk (e.map lowerc))

end UrlM

/-! ## LSP bridge pool and tool dispatch (src/lsp/src/main.rs)

`Pool` carries the routing tables of `LanguageServerPool`; the running
`managers` map and the `last_server` tiebreaker are omitted — no claim
observes them, and `with_manager`'s effect is modelled by the frame log a
call produces.  The filesystem is an association list from absolute paths
to file contents (characters standing in for bytes, so `metadata().len()`
is the content length).  The helper process is already started and its
reply is an oracle parameter: transport failures are out of scope, so the
only failures are the pre-frame ones the claims are about. -/

namespace Lsp

structure ErrorObject where
  code : Int
  message : String
  data : Option Json
deriving Repr

/-- `invalid_params_error` (src/lsp/src/main.rs, lines 65-67). -/
def invalidParamsError (message : String) : ErrorObject :=
  ⟨-32602, message, none⟩

/-- `unsupported_tool_error` (lines 69-75): code -32601 with the tool name
in the data payload. -/
def unsupportedToolError (tool : String) : ErrorObject :=
  ⟨-32601, "Unsupported lsp tool", some (Json.obj [("tool", Json.str tool)])⟩

def asciiLowerS (s : String) : String := String.mk (s.toList.map UrlM.lowerc)

structure Pool where
  defaultCmd : Option String
  docServers : List (String × String)
  langMap : List (String × String)
  extMap : List (String × String)
  extLanguageMap : List (String × String)
deriving Repr

/-- The error of `resolve_command`'s final branch (lines 1026-1028). -/
def noServerRegisteredMsg : String :=
  "No language server registered for this request. Install a supported server for the file type or configure overrides via LSP_SERVER_MAP/serverCommand."

/-- `LanguageServerPool::resolve_command` (lines 994-1030), with the
working directory for URI normalization as a parameter. -/
def resolveCommand (cwd : String) (p : Pool)
    (explicit uri language : Option String) : Except String String :=
  match explicit with
  | some cmd => Except.ok cmd
  | none =>
    let byDoc := match uri with
      | some u => assocLookup (UrlM.normalizeUriS cwd u) p.docServers
      | none => none
    match byDoc with
    | some cmd => Except.ok cmd
    | none =>
      let byLang := match language with
        | some lang => assocLookup (asciiLowerS lang) p.langMap
        | none => none
      match byLang with
      | some cmd => Except.ok cmd
      | none =>
        let byExt := match uri with
          | some u =>
            match UrlM.extensionFromUriS (UrlM.normalizeUriS cwd u) with
            | some ext => assocLookup ext p.extMap
            | none => none
          | none => none
        match byExt with
        | some cmd => Except.ok cmd
        | none =>
          match p.defaultCmd with
          | some cmd => Except.ok cmd
          | none => Except.error noServerRegisteredMsg

/-- `LanguageServerPool::has_document` (lines 1128-1131). -/
def hasDocument (cwd : String) (p : Pool) (uri : String) : Bool :=
  (assocLookup (UrlM.normalizeUriS cwd uri) p.docServers).isSome

/-- `LanguageServerPool::associate_document` (lines 1044-1048, without the
`last_server` update). -/
def associateDocument (cwd : String) (p : Pool) (uri cmd : String) : Pool :=
  { p with docServers :=
      assocInsert (UrlM.normalizeUriS cwd uri) cmd p.docServers }

/-- The `language_defaults` table of `built_in_server_map`
(lines 837-856). -/
def builtinLangMap : List (String × String) :=
  [("bash", "bash-language-server start"), ("c", "clangd"),
   ("cpp", "clangd"), ("go", "gopls"),
   ("javascript", "typescript-language-server --stdio"),
   ("javascriptreact", "typescript-language-server --stdio"),
   ("json", "vscode-json-language-server --stdio"),
   ("jsonc", "vscode-json-language-server --stdio"),
   ("markdown", "marksman"), ("python", "pylsp"), ("rust", "rust-analyzer"),
   ("shell", "bash-language-server start"),
   ("shellscript", "bash-language-server start"), ("toml", "taplo lsp"),
   ("typescript", "typescript-language-server --stdio"),
   ("typescriptreact", "typescript-language-server --stdio"),
   ("zig", "zls"), ("yaml", "yaml-language-server --stdio")]

/-- The `extension_defaults` table (lines 862-887). -/
def builtinExtMap : List (String × String) :=
  [("bash", "bash-language-server start"), ("c", "clangd"), ("cc", "clangd"),
   ("cpp", "clangd"), ("cxx", "clangd"), ("go", "gopls"), ("h", "clangd"),
   ("hpp", "clangd"), ("hh", "clangd"),
   ("js", "typescript-language-server --stdio"),
   ("jsx", "typescript-language-server --stdio"),
   ("json", "vscode-json-language-server --stdio"),
   ("jsonc", "vscode-json-language-server --stdio"), ("md", "marksman"),
   ("mdx", "marksman"), ("py", "pylsp"), ("pyi", "pylsp"),
   ("rs", "rust-analyzer"), ("sh", "bash-language-server start"),
   ("toml", "taplo lsp"), ("ts", "typescript-language-server --stdio"),
   ("tsx", "typescript-language-server --stdio"),
   ("yaml", "yaml-language-server --stdio"),
   ("yml", "yaml-language-server --stdio"), ("zig", "zls")]

/-- The `extension_languages` table (lines 893-919). -/
def builtinExtLanguageMap : List (String × String) :=
  [("bash", "shell"), ("c", "c"), ("cc", "cpp"), ("cpp", "cpp"),
   ("cxx", "cpp"), ("go", "go"), ("h", "c"), ("hpp", "cpp"), ("hh", "cpp"),
   ("js", "javascript"), ("jsx", "javascriptreact"), ("json", "json"),
   ("jsonc", "json"), ("md", "markdown"), ("mdx", "markdown"),
   ("py", "python"), ("pyi", "python"), ("rs", "rust"), ("sh", "shell"),
   ("toml", "toml"), ("ts", "typescript"), ("tsx", "typescriptreact"),
   ("yaml", "yaml"), ("yml", "yaml"), ("zig", "zig")]

/-- A pool with the built-in tables and no open documents
(`LanguageServerPool::new` without `LSP_SERVER_MAP` overrides). -/
def builtinPool (defaultCmd : Option String) : Pool :=
  ⟨defaultCmd, [], builtinLangMap, builtinExtMap, builtinExtLanguageMap⟩

/-- `MAX_INLINE_DOC_BYTES` (line 1172). -/
def maxInlineDocBytes : Nat := 2 * 1024 * 1024

/-- The over-limit message of `build_did_open_params` (lines 1174-1178). -/
def docTooLargeMsg (canonicalUri : String) (len : Nat) : String :=
  "Document " ++ canonicalUri ++ " is " ++ toString len ++
    " bytes; mcp-lsp will not inline files larger than 2 MiB. Provide a smaller file or send the content explicitly via didOpen."

/-- `LanguageServerPool::build_did_open_params` (lines 1167-1210) over the
filesystem model: stat the file (its length is the content length),
refuse anything over 2 MiB, read the text, and infer the language id from
the extension table with the `plaintext` fallback.  (The
file-deleted-between-stat-and-read branch of the source cannot arise in
the model.) -/
def buildDidOpenParams (cwd : String) (p : Pool) (fs : List (String × String))
    (uri : String) (languageHint : Option String) : Except String Json :=
  let canonicalUri := UrlM.normalizeUriS cwd uri
  let path := UrlM.pathFromUriS canonicalUri
  match assocLookup path fs with
  | none => Except.error ("stat document content for " ++ path)
  | some content =>
    if content.length > maxInlineDocBytes then
      Except.error (docTooLargeMsg canonicalUri content.length)
    else
      let languageId :=
        match languageHint with
        | some s => s
        | none =>
          match UrlM.rustPathExtensionS path with
          | some ext => (assocLookup ext p.extLanguageMap).getD "plaintext"
          | none => "plaintext"
      Except.ok (Json.obj [("textDocument", Json.obj
        [("uri", Json.str canonicalUri), ("languageId", Json.str languageId),
         ("version", Json.num 1), ("text", Json.str content)])])

/-- One frame written to the helper: a notification or a request. -/
structure Frame where
  isNotification : Bool
  method : String
  params : Json
deriving Repr

/-- `format_tool_error_message` (lines 1992-1997). -/
def formatToolErrorMessage (tool : String) (method : Option String)
    (err : String) : String :=
  match method with
  | some m => "LSP tool '" ++ tool ++ "' invoking '" ++ m ++ "' failed: " ++ err
  | none => "Tool '" ++ tool ++ "' failed: " ++ err

/-- `build_error_data` (lines 1970-1990). -/
def buildErrorData (tool : String) (method : Option String)
    (uri serverCmd : Option String) (err : String) : Json :=
  let fields := [("tool", Json.str tool)]
  let fields := match method with
    | some m => Json.objInsert fields "method" (Json.str m)
    | none => fields
  let fields := match uri with
    | some u => Json.objInsert fields "uri" (Json.str u)
    | none => fields
  let fields := match serverCmd with
    | some c => Json.objInsert fields "serverCommand" (Json.str c)
    | none => fields
  Json.obj (Json.objInsert fields "details" (Json.str err))

/-- `require_string_field` (lines 77-82). -/
def requireStringField (args : List (String × Json)) (key : String) :
    Except ErrorObject String :=
  match (Json.alookup key args).bind Json.asStr with
  | some s => Except.ok s
  | none => Except.error (invalidParamsError ("Missing required field: " ++ key))

/-- `require_object_field` (lines 84-94). -/
def requireObjectField (args : List (String × Json)) (key : String) :
    Except ErrorObject Json :=
  match Json.alookup key args with
  | some (Json.obj fields) => Except.ok (Json.obj fields)
  | some _ =>
    Except.error (invalidParamsError ("Field '" ++ key ++ "' must be an object"))
  | none => Except.error (invalidParamsError ("Missing required field: " ++ key))

/-- `require_array_field` (lines 96-106). -/
def requireArrayField (args : List (String × Json)) (key : String) :
    Except ErrorObject Json :=
  match Json.alookup key args with
  | some (Json.arr xs) => Except.ok (Json.arr xs)
  | some _ =>
    Except.error (invalidParamsError ("Field '" ++ key ++ "' must be an array"))
  | none => Except.error (invalidParamsError ("Missing required field: " ++ key))

/-- `require_value_field` (lines 108-112). -/
def requireValueField (args : List (String × Json)) (key : String) :
    Except ErrorObject Json :=
  match Json.alookup key args with
  | some v => Except.ok v
  | none => Except.error (invalidParamsError ("Missing required field: " ++ key))

/-- `canonical_uri` (lines 114-117). -/
def canonicalUriOf (cwd : String) (args : List (String × Json)) :
    Except ErrorObject String :=
  (requireStringField args "uri").map (UrlM.normalizeUriS cwd)

/-- `LspInvocation` (lines 58-63). -/
structure LspInvocation where
  method : String
  params : Json
  serverCmd : Option String
  uriHint : Option String
deriving Repr

/-- The method table of the nine position tools (lines 146-157). -/
def positionToolMethod (tool : String) : String :=
  if tool = "lsp_hover" then "textDocument/hover"
  else if tool = "lsp_definition" then "textDocument/definition"
  else if tool = "lsp_type_definition" then "textDocument/typeDefinition"
  else if tool = "lsp_implementation" then "textDocument/implementation"
  else if tool = "lsp_document_highlight" then "textDocument/documentHighlight"
  else if tool = "lsp_linked_editing_range" then "textDocument/linkedEditingRange"
  else if tool = "lsp_moniker" then "textDocument/moniker"
  else if tool = "lsp_prepare_rename" then "textDocument/prepareRename"
  else "textDocument/declaration"

/-- `build_lsp_invocation` (lines 119-562), branch for branch; the match
on the tool name becomes a chain of equality tests ending in the
`unsupported_tool_error` catch-all. -/
def buildLspInvocation (cwd : String) (tool : String)
    (args : List (String × Json)) (serverCmd : Option String) :
    Except ErrorObject LspInvocation :=
  let mk := fun (method : String) (params : Json) (uriHint : Option String) =>
    LspInvocation.mk method params serverCmd uriHint
  let textDoc := fun (uri : String) =>
    ("textDocument", Json.obj [("uri", Json.str uri)])
  if tool = "lsp_hover" ∨ tool = "lsp_definition" ∨
      tool = "lsp_type_definition" ∨ tool = "lsp_implementation" ∨
      tool = "lsp_document_highlight" ∨ tool = "lsp_linked_editing_range" ∨
      tool = "lsp_moniker" ∨ tool = "lsp_prepare_rename" ∨
      tool = "lsp_declaration" then do
    let uri ← canonicalUriOf cwd args
    let position ← requireObjectField args "position"
    Except.ok (mk (positionToolMethod tool)
      (Json.obj [textDoc uri, ("position", position)]) (some uri))
  else if tool = "lsp_completion" then do
    let uri ← canonicalUriOf cwd args
    let position ← requireObjectField args "position"
    let fields := [textDoc uri, ("position", position)]
    let fields := match Json.alookup "context" args with
      | some context => Json.objInsert fields "context" context
      | none => fields
    Except.ok (mk "textDocument/completion" (Json.obj fields) (some uri))
  else if tool = "lsp_signature_help" then do
    let uri ← canonicalUriOf cwd args
    let position ← requireObjectField args "position"
    let fields := [textDoc uri, ("position", position)]
    let fields := match Json.alookup "context" args with
      | some context => Json.objInsert fields "context" context
      | none => fields
    Except.ok (mk "textDocument/signatureHelp" (Json.obj fields) (some uri))
  else if tool = "lsp_references" then do
    let uri ← canonicalUriOf cwd args
    let position ← requireObjectField args "position"
    let include_ := ((Json.alookup "includeDeclaration" args).bind
      Json.asBool).getD false
    Except.ok (mk "textDocument/references"
      (Json.obj [textDoc uri, ("position", position),
        ("context", Json.obj [("includeDeclaration", Json.bool include_)])])
      (some uri))
  else if tool = "lsp_selection_range" then do
    let uri ← canonicalUriOf cwd args
    let positions ← requireArrayField args "positions"
    Except.ok (mk "textDocument/selectionRange"
      (Json.obj [textDoc uri, ("positions", positions)]) (some uri))
  else if tool = "lsp_folding_range" then do
    let uri ← canonicalUriOf cwd args
    Except.ok (mk "textDocument/foldingRange" (Json.obj [textDoc uri]) (some uri))
  else if tool = "lsp_document_symbol" then do
    let uri ← canonicalUriOf cwd args
    Except.ok (mk "textDocument/documentSymbol" (Json.obj [textDoc uri]) (some uri))
  else if tool = "lsp_workspace_symbol" then do
    let query ← requireStringField args "query"
    Except.ok (mk "workspace/symbol" (Json.obj [("query", Json.str query)]) none)
  else if tool = "lsp_workspace_symbol_resolve" then do
    let item ← requireObjectField args "item"
    Except.ok (mk "workspaceSymbol/resolve" item none)
  else if tool = "lsp_rename" then do
    let uri ← canonicalUriOf cwd args
    let position ← requireObjectField args "position"
    let newName ← requireStringField args "newName"
    Except.ok (mk "textDocument/rename"
      (Json.obj [textDoc uri, ("position", position),
        ("newName", Json.str newName)]) (some uri))
  else if tool = "lsp_code_action" then do
    let uri ← canonicalUriOf cwd args
    let range ← requireObjectField args "range"
    let context ← requireValueField args "context"
    Except.ok (mk "textDocument/codeAction"
      (Json.obj [textDoc uri, ("range", range), ("context", context)]) (some uri))
  else if tool = "lsp_code_action_resolve" then do
    let item ← requireObjectField args "item"
    Except.ok (mk "codeAction/resolve" item none)
  else if tool = "lsp_completion_item_resolve" then do
    let item ← requireObjectField args "item"
    Except.ok (mk "completionItem/resolve" item none)
  else if tool = "lsp_code_lens" then do
    let uri ← canonicalUriOf cwd args
    Except.ok (mk "textDocument/codeLens" (Json.obj [textDoc uri]) (some uri))
  else if tool = "lsp_code_lens_resolve" then do
    let item ← requireObjectField args "item"
    Except.ok (mk "codeLens/resolve" item none)
  else if tool = "lsp_document_link" then do
    let uri ← canonicalUriOf cwd args
    Except.ok (mk "textDocument/documentLink" (Json.obj [textDoc uri]) (some uri))
  else if tool = "lsp_document_link_resolve" then do
    let item ← requireObjectField args "item"
    Except.ok (mk "documentLink/resolve" item none)
  else if tool = "lsp_document_color" then do
    let uri ← canonicalUriOf cwd args
    Except.ok (mk "textDocument/documentColor" (Json.obj [textDoc uri]) (some uri))
  else if tool = "lsp_color_presentation" then do
    let uri ← canonicalUriOf cwd args
    let color ← requireValueField args "color"
    let range ← requireObjectField args "range"
    Except.ok (mk "textDocument/colorPresentation"
      (Json.obj [textDoc uri, ("color", color), ("range", range)]) (some uri))
  else if tool = "lsp_formatting" then do
    let uri ← canonicalUriOf cwd args
    let options ← requireObjectField args "options"
    Except.ok (mk "textDocument/formatting"
      (Json.obj [textDoc uri, ("options", options)]) (some uri))
  else if tool = "lsp_range_formatting" then do
    let uri ← canonicalUriOf cwd args
    let range ← requireObjectField args "range"
    let options ← requireObjectField args "options"
    Except.ok (mk "textDocument/rangeFormatting"
      (Json.obj [textDoc uri, ("range", range), ("options", options)]) (some uri))
  else if tool = "lsp_on_type_formatting" then do
    let uri ← canonicalUriOf cwd args
    let position ← requireObjectField args "position"
    let ch ← requireStringField args "ch"
    let options ← requireObjectField args "options"
    Except.ok (mk "textDocument/onTypeFormatting"
      (Json.obj [textDoc uri, ("position", position), ("ch", Json.str ch),
        ("options", options)]) (some uri))
  else if tool = "lsp_inline_value" then do
    let uri ← canonicalUriOf cwd args
    let range ← requireObjectField args "range"
    let context ← requireValueField args "context"
    Except.ok (mk "textDocument/inlineValue"
      (Json.obj [textDoc uri, ("range", range), ("context", context)]) (some uri))
  else if tool = "lsp_inlay_hint" then do
    let uri ← canonicalUriOf cwd args
    let range ← requireObjectField args "range"
    Except.ok (mk "textDocument/inlayHint"
      (Json.obj [textDoc uri, ("range", range)]) (some uri))
  else if tool = "lsp_inlay_hint_resolve" then do
    let item ← requireObjectField args "item"
    Except.ok (mk "inlayHint/resolve" item none)
  else if tool = "lsp_call_hierarchy_prepare" then do
    let uri ← canonicalUriOf cwd args
    let position ← requireObjectField args "position"
    Except.ok (mk "textDocument/prepareCallHierarchy"
      (Json.obj [textDoc uri, ("position", position)]) (some uri))
  else if tool = "lsp_call_hierarchy_incoming_calls" then do
    let item ← requireObjectField args "item"
    Except.ok (mk "callHierarchy/incomingCalls" item none)
  else if tool = "lsp_call_hierarchy_outgoing_calls" then do
    let item ← requireObjectField args "item"
    Except.ok (mk "callHierarchy/outgoingCalls" item none)
  else if tool = "lsp_type_hierarchy_prepare" then do
    let uri ← canonicalUriOf cwd args
    let position ← requireObjectField args "position"
    Except.ok (mk "textDocument/prepareTypeHierarchy"
      (Json.obj [textDoc uri, ("position", position)]) (some uri))
  else if tool = "lsp_type_hierarchy_supertypes" then do
    let item ← requireObjectField args "item"
    Except.ok (mk "typeHierarchy/supertypes" item none)
  else if tool = "lsp_type_hierarchy_subtypes" then do
    let item ← requireObjectField args "item"
    Except.ok (mk "typeHierarchy/subtypes" item none)
  else if tool = "lsp_semantic_tokens_full" then do
    let uri ← canonicalUriOf cwd args
    Except.ok (mk "textDocument/semanticTokens/full"
      (Json.obj [textDoc uri]) (some uri))
  else if tool = "lsp_semantic_tokens_full_delta" then do
    let uri ← canonicalUriOf cwd args
    let prev ← requireStringField args "previousResultId"
    Except.ok (mk "textDocument/semanticTokens/full/delta"
      (Json.obj [textDoc uri, ("previousResultId", Json.str prev)]) (some uri))
  else if tool = "lsp_semantic_tokens_range" then do
    let uri ← canonicalUriOf cwd args
    let range ← requireObjectField args "range"
    Except.ok (mk "textDocument/semanticTokens/range"
      (Json.obj [textDoc uri, ("range", range)]) (some uri))
  else if tool = "lsp_execute_command" then do
    let command ← requireStringField args "command"
    let params := match Json.alookup "arguments" args with
      | some arguments =>
        Json.obj [("command", Json.str command), ("arguments", arguments)]
      | none => Json.obj [("command", Json.str command)]
    Except.ok (mk "workspace/executeCommand" params none)
  else if tool = "lsp_will_create_files" then do
    let files ← requireArrayField args "files"
    Except.ok (mk "workspace/willCreateFiles" (Json.obj [("files", files)]) none)
  else if tool = "lsp_will_rename_files" then do
    let files ← requireArrayField args "files"
    Except.ok (mk "workspace/willRenameFiles" (Json.obj [("files", files)]) none)
  else if tool = "lsp_will_delete_files" then do
    let files ← requireArrayField args "files"
    Except.ok (mk "workspace/willDeleteFiles" (Json.obj [("files", files)]) none)
  else if tool = "lsp_text_document_content" then do
    let uri ← canonicalUriOf cwd args
    Except.ok (mk "workspace/textDocumentContent"
      (Json.obj [textDoc uri]) (some uri))
  else if tool = "lsp_text_document_diagnostic" then do
    let uri ← canonicalUriOf cwd args
    let fields := [textDoc uri]
    let fields := match Json.alookup "identifier" args with
      | some idf => Json.objInsert fields "identifier" idf
      | none => fields
    let fields := match Json.alookup "previousResultId" args with
      | some prev => Json.objInsert fields "previousResultId" prev
      | none => fields
    Except.ok (mk "textDocument/diagnostic" (Json.obj fields) (some uri))
  else if tool = "lsp_workspace_diagnostic" then do
    let fields : List (String × Json) := []
    let fields := match Json.alookup "previousResultIds" args with
      | some prev => Json.objInsert fields "previousResultIds" prev
      | none => fields
    let fields := match Json.alookup "identifier" args with
      | some idf => Json.objInsert fields "identifier" idf
      | none => fields
    Except.ok (mk "workspace/diagnostic" (Json.obj fields) none)
  else Except.error (unsupportedToolError tool)

/-- The tool-name aliasing step of `handle_tools_call` (lines 2009-2018). -/
def aliasTool (n : String) : String :=
  if n = "hover" then "lsp_hover"
  else if n = "definition" then "lsp_definition"
  else if n = "type_definition" then "lsp_type_definition"
  else if n = "implementation" then "lsp_implementation"
  else if n = "references" then "lsp_references"
  else if n = "completion" then "lsp_completion"
  else if n = "call" then "lsp_call"
  else n

/-- Every tool name `handle_tools_call` can serve: the two passthroughs
plus the named branches of `build_lsp_invocation`. -/
def lspToolCatalog : List String :=
  ["lsp_call", "lsp_notify", "lsp_hover", "lsp_definition",
   "lsp_type_definition", "lsp_implementation", "lsp_document_highlight",
   "lsp_linked_editing_range", "lsp_moniker", "lsp_prepare_rename",
   "lsp_declaration", "lsp_completion", "lsp_signature_help",
   "lsp_references", "lsp_selection_range", "lsp_folding_range",
   "lsp_document_symbol", "lsp_workspace_symbol",
   "lsp_workspace_symbol_resolve", "lsp_rename", "lsp_code_action",
   "lsp_code_action_resolve", "lsp_completion_item_resolve", "lsp_code_lens",
   "lsp_code_lens_resolve", "lsp_document_link", "lsp_document_link_resolve",
   "lsp_document_color", "lsp_color_presentation", "lsp_formatting",
   "lsp_range_formatting", "lsp_on_type_formatting", "lsp_inline_value",
   "lsp_inlay_hint", "lsp_inlay_hint_resolve", "lsp_call_hierarchy_prepare",
   "lsp_call_hierarchy_incoming_calls", "lsp_call_hierarchy_outgoing_calls",
   "lsp_type_hierarchy_prepare", "lsp_type_hierarchy_supertypes",
   "lsp_type_hierarchy_subtypes", "lsp_semantic_tokens_full",
   "lsp_semantic_tokens_full_delta", "lsp_semantic_tokens_range",
   "lsp_execute_command", "lsp_will_create_files", "lsp_will_rename_files",
   "lsp_will_delete_files", "lsp_text_document_content",
   "lsp_text_document_diagnostic", "lsp_workspace_diagnostic"]

/-- The pool closure of `handle_tools_call` (lines 2076-2108): resolve the
helper, synthesize the `didOpen` for an unassociated document, send the
frames in order, and associate the document on success.  The helper's
reply is the oracle `resp`. -/
def runWrapperInvocation (cwd : String) (p : Pool)
    (fs : List (String × String)) (method : String) (params : Json)
    (serverCmd uriHint : Option String) (resp : Json) :
    Except String (Json × List Frame × Pool) :=
  match resolveCommand cwd p serverCmd uriHint none with
  | Except.error e => Except.error e
  | Except.ok cmd =>
    let needOpen : Bool := match uriHint with
      | some uri => ! hasDocument cwd p uri
      | none => false
    let openParams : Except String (Option Json) :=
      if needOpen then
        match uriHint with
        | some uri => (buildDidOpenParams cwd p fs uri none).map some
        | none => Except.ok none
      else Except.ok none
    match openParams with
    | Except.error e => Except.error e
    | Except.ok op =>
      let frames :=
        (match op with
         | some payload => [⟨true, "textDocument/didOpen", payload⟩]
         | none => []) ++ [⟨false, method, params⟩]
      let p' :=
        if needOpen then
          match uriHint with
          | some uri => associateDocument cwd p uri cmd
          | none => p
        else p
      Except.ok (resp, frames, p')

/-- `handle_tools_call` (lines 1999-2148) for the wrapper-tool path: alias
the name, split off `serverCommand`, reject names without the `lsp_`
prefix, build the invocation, run the pool closure, and wrap the outcome.
The passthrough tools `lsp_call` and `lsp_notify` take their own path in
the source (lines 2025-2047) and are not modelled; no claim routes through
them.  The result pairs the response (the `{tool, status, result}`
envelope or the `ErrorObject`) with the frames written, and returns the
updated pool. -/
def handleWrapperToolsCall (cwd : String) (p : Pool)
    (fs : List (String × String)) (rawName : String)
    (rawArgs : List (String × Json)) (resp : Json) :
    (Except ErrorObject (Json × List Frame)) × Pool :=
  let tool := aliasTool rawName
  let serverCmd := (Json.alookup "serverCommand" rawArgs).bind Json.asStr
  let args := assocErase "serverCommand" rawArgs
  if ¬ strStartsWith tool "lsp_" then
    (Except.error (unsupportedToolError tool), p)
  else
    match buildLspInvocation cwd tool args serverCmd with
    | Except.error e => (Except.error e, p)
    | Except.ok inv =>
      match runWrapperInvocation cwd p fs inv.method inv.params
          inv.serverCmd inv.uriHint resp with
      | Except.error e =>
        (Except.error ⟨-32050, formatToolErrorMessage tool (some inv.method) e,
          some (buildErrorData tool (some inv.method) inv.uriHint
            inv.serverCmd e)⟩, p)
      | Except.ok (value, frames, p') =>
        (Except.ok (Json.obj [("tool", Json.str tool),
          ("status", Json.str "ok"), ("result", value)], frames), p')

end Lsp

/-! ## Claim theorems -/

section ClaimTheorems

/-- C7: an invocation of `dap_set_breakpoints` carrying a `source` object and
a `lines` array of integers but no `breakpoints` field produces the
downstream command `setBreakpoints` whose arguments carry the same source
and a `breakpoints` array `[⟨line: l⟩ for l in lines]` in order; and the
advertised tool list contains `dap_configuration_done` exactly when the
capability record is absent or reports `supportsConfigurationDoneRequest`
as `true`. -/
theorem dap_set_breakpoints_lines_and_config_done_gate :
    (∀ (args : List (String × Json)) (source : Json) (lines : List Int),
      Json.alookup "source" args = some source →
      Json.alookup "breakpoints" args = none →
      (Json.alookup "lines" args).bind Json.asArr = some (lines.map Json.num) →
      Json.alookup "sourceModified" args = none →
      Dap.handleStructuredCall "dap_set_breakpoints" args =
        Except.ok ("setBreakpoints", Json.obj
          [("source", source),
           ("breakpoints",
             Json.arr (lines.map (fun l => Json.obj [("line", Json.num l)])))])) ∧
    (∀ caps : Option Json,
      ("dap_configuration_done" ∈
          Dap.filterToolsByCapabilities Dap.dapCatalog caps) ↔
        (caps = none ∨ ∃ c, caps = some c ∧
          (c.get "supportsConfigurationDoneRequest").bind Json.asBool =
            some true)) := by
  constructor
  · intro args source lines hsource hbp hlines hsm
    have hfm : (lines.map Json.num).filterMap Json.asI64 = lines := by
      simp [List.filterMap_map, Function.comp_def, Json.asI64]
    simp [Dap.handleStructuredCall, hsource, hbp, hlines, hsm, hfm]
  · intro caps
    cases caps with
    | none => simp [Dap.filterToolsByCapabilities, Dap.dapCatalog]
    | some c =>
      have hget : (c.get "supportsConfigurationDoneRequest") =
          Json.alookup "supportsConfigurationDoneRequest" ((c.asObj).getD []) := by
        cases c <;> simp [Json.get, Json.asObj, Json.alookup]
      rcases hb : (c.get "supportsConfigurationDoneRequest").bind Json.asBool with _ | b
      · simp [Dap.filterToolsByCapabilities, ← hget, hb,
          Dap.dapAlwaysAllowed, Dap.dapCatalog]
      · cases b
        · simp [Dap.filterToolsByCapabilities, ← hget, hb,
            Dap.dapAlwaysAllowed, Dap.dapCatalog]
        · simp [Dap.filterToolsByCapabilities, ← hget, hb,
            Dap.dapAlwaysAllowed, Dap.dapCatalog]

/-- Witness for C7 at the spec's concrete scenario: source `/x`, lines
`[1,5,9]`; and a capability record reporting support. -/
theorem dap_set_breakpoints_lines_and_config_done_gate_witness :
    Dap.handleStructuredCall "dap_set_breakpoints"
        [("source", Json.obj [("path", Json.str "/x")]),
         ("lines", Json.arr [Json.num 1, Json.num 5, Json.num 9])] =
      Except.ok ("setBreakpoints", Json.obj
        [("source", Json.obj [("path", Json.str "/x")]),
         ("breakpoints", Json.arr
           [Json.obj [("line", Json.num 1)],
            Json.obj [("line", Json.num 5)],
            Json.obj [("line", Json.num 9)]])]) ∧
    ("dap_configuration_done" ∈ Dap.filterToolsByCapabilities Dap.dapCatalog
      (some (Json.obj [("supportsConfigurationDoneRequest", Json.bool true)]))) := by
  constructor
  · exact dap_set_breakpoints_lines_and_config_done_gate.1
      [("source", Json.obj [("path", Json.str "/x")]),
       ("lines", Json.arr [Json.num 1, Json.num 5, Json.num 9])]
      (Json.obj [("path", Json.str "/x")]) [1, 5, 9]
      (by rfl) (by rfl) (by rfl) (by rfl)
  · exact (dap_set_breakpoints_lines_and_config_done_gate.2 _).mpr
      (Or.inr ⟨_, rfl, by rfl⟩)

/-- C10: a DAP response whose `request_seq` matches the outstanding request
is treated as successful when it lacks a `success` field (returning its
`body`, or an empty object when `body` is absent); it yields an error
exactly when `success` is present as the boolean `false`, and that error
carries the response's `message` string or the fallback text `dap error`. -/
theorem dap_response_success_defaulting (v : Json) (seq : Int)
    (hty : (v.get "type").bind Json.asStr = some "response")
    (hseq : (v.get "request_seq").bind Json.asI64 = some seq) :
    (v.get "success" = none →
      Dap.dapHandleResponse seq v =
        some (Except.ok ((v.get "body").getD (Json.obj [])))) ∧
    ((∃ e, Dap.dapHandleResponse seq v = some (Except.error e)) ↔
      (v.get "success").bind Json.asBool = some false) ∧
    ((v.get "success").bind Json.asBool = some false →
      Dap.dapHandleResponse seq v =
        some (Except.error (((v.get "message").bind Json.asStr).getD "dap error"))) := by
  have herr : (v.get "success").bind Json.asBool = some false →
      Dap.dapHandleResponse seq v =
        some (Except.error (((v.get "message").bind Json.asStr).getD "dap error")) := by
    intro hb
    simp [Dap.dapHandleResponse, hty, hseq, hb]
  refine ⟨?_, ?_, herr⟩
  · intro hnone
    simp [Dap.dapHandleResponse, hty, hseq, hnone]
  · constructor
    · rintro ⟨e, he⟩
      rcases hb : (v.get "success").bind Json.asBool with _ | b
      · simp [Dap.dapHandleResponse, hty, hseq, hb] at he
      · cases b
        · rfl
        · simp [Dap.dapHandleResponse, hty, hseq, hb] at he
    · intro hb
      exact ⟨_, herr hb⟩

/-- Witness for C10: a matching response with no `success` field and no
`body` returns the empty object. -/
theorem dap_response_success_defaulting_witness :
    Dap.dapHandleResponse 2
        (Json.obj [("type", Json.str "response"), ("request_seq", Json.num 2)]) =
      some (Except.ok (Json.obj [])) := by
  exact (dap_response_success_defaulting
    (Json.obj [("type", Json.str "response"), ("request_seq", Json.num 2)]) 2
    (by rfl) (by rfl)).1 (by rfl)

end ClaimTheorems

/-- The best-candidate fold of `find_best_range`: a produced best is either
a candidate from the list or the starting accumulator, and its length
measure is minimal among all candidates seen and no larger than the
accumulator's. -/
theorem foldl_bestStep_spec (rd : List (Int × Int)) (did : Int)
    (pos : Lsif.Pos) (l : List (Int × Lsif.Span)) :
    ∀ (acc : Option (Int × Lsif.Span)) (q : Int × Lsif.Span),
      l.foldl (Lsif.bestStep rd did pos) acc = some q →
      ((q ∈ l ∧ Lsif.isCand rd did pos q) ∨ acc = some q) ∧
      (∀ p ∈ l, Lsif.isCand rd did pos p →
        Lsif.spanLen q.2 ≤ Lsif.spanLen p.2) ∧
      (∀ a, acc = some a → Lsif.spanLen q.2 ≤ Lsif.spanLen a.2) := by
  induction l with
  | nil =>
    intro acc q h
    rw [List.foldl_nil] at h
    refine ⟨Or.inr h, by simp, ?_⟩
    intro a ha
    rw [h] at ha
    cases ha
    exact le_refl _
  | cons p l ih =>
    intro acc q h
    have hstep : (p :: l).foldl (Lsif.bestStep rd did pos) acc =
        l.foldl (Lsif.bestStep rd did pos) (Lsif.bestStep rd did pos acc p) := rfl
    rw [hstep] at h
    obtain ⟨H1, H2, H3⟩ := ih (Lsif.bestStep rd did pos acc p) q h
    by_cases hc : Lsif.isCand rd did pos p
    · obtain ⟨hdoc, hcont⟩ := hc
      cases acc with
      | none =>
        have hs : Lsif.bestStep rd did pos none p = some p := by
          simp [Lsif.bestStep, hdoc, hcont]
        rw [hs] at H1 H3
        have hqp : Lsif.spanLen q.2 ≤ Lsif.spanLen p.2 := H3 p rfl
        refine ⟨?_, ?_, ?_⟩
        · rcases H1 with ⟨hm, hcq⟩ | heq
          · exact Or.inl ⟨List.mem_cons_of_mem _ hm, hcq⟩
          · cases heq
            exact Or.inl ⟨List.mem_cons_self _ _, ⟨hdoc, hcont⟩⟩
        · intro r hr hcr
          rcases List.mem_cons.mp hr with h1 | h2
          · cases h1; exact hqp
          · exact H2 r h2 hcr
        · intro a ha
          cases ha
      | some prev =>
        by_cases hlt : Lsif.spanLen p.2 < Lsif.spanLen prev.2
        · have hs : Lsif.bestStep rd did pos (some prev) p = some p := by
            simp [Lsif.bestStep, hdoc, hcont, hlt]
          rw [hs] at H1 H3
          have hqp : Lsif.spanLen q.2 ≤ Lsif.spanLen p.2 := H3 p rfl
          refine ⟨?_, ?_, ?_⟩
          · rcases H1 with ⟨hm, hcq⟩ | heq
            · exact Or.inl ⟨List.mem_cons_of_mem _ hm, hcq⟩
            · cases heq
              exact Or.inl ⟨List.mem_cons_self _ _, ⟨hdoc, hcont⟩⟩
          · intro r hr hcr
            rcases List.mem_cons.mp hr with h1 | h2
            · cases h1; exact hqp
            · exact H2 r h2 hcr
          · intro a ha
            cases ha
            exact hqp.trans hlt.le
        · have hs : Lsif.bestStep rd did pos (some prev) p = some prev := by
            simp [Lsif.bestStep, hdoc, hcont, hlt]
          rw [hs] at H1 H3
          have hqprev : Lsif.spanLen q.2 ≤ Lsif.spanLen prev.2 := H3 prev rfl
          refine ⟨?_, ?_, ?_⟩
          · rcases H1 with ⟨hm, hcq⟩ | heq
            · exact Or.inl ⟨List.mem_cons_of_mem _ hm, hcq⟩
            · exact Or.inr heq
          · intro r hr hcr
            rcases List.mem_cons.mp hr with h1 | h2
            · cases h1
              exact hqprev.trans (le_of_not_lt hlt)
            · exact H2 r h2 hcr
          · intro a ha
            cases ha
            exact hqprev
    · have hs : Lsif.bestStep rd did pos acc p = acc := by
        unfold Lsif.isCand at hc
        push_neg at hc
        cases hd : assocLookup p.1 rd with
        | none => simp [Lsif.bestStep, hd]
        | some docId =>
          by_cases hdid : docId = did
          · subst hdid
            have : ¬ Lsif.contains p.2 pos := hc hd
            simp [Lsif.bestStep, hd, this]
          · simp [Lsif.bestStep, hd, hdid]
      rw [hs] at H1 H3
      refine ⟨?_, ?_, H3⟩
      · rcases H1 with ⟨hm, hcq⟩ | heq
        · exact Or.inl ⟨List.mem_cons_of_mem _ hm, hcq⟩
        · exact Or.inr heq
      · intro r hr hcr
        rcases List.mem_cons.mp hr with h1 | h2
        · cases h1; exact absurd hcr hc
        · exact H2 r h2 hcr

/-- C6: for every loaded LSIF graph, `find_best_range` picks, among the
ranges of the queried document that contain the position (containment is
half-open, `start ≤ position < end` in document order), a containing range
of minimal length measure; in particular, on the specification's graph with
r1 `(0,0)-(0,10)` and r2 `(0,2)-(0,6)` both contained in d1 and wired to
result sets, a definition query at line 0 character 4 selects r2 (id 3),
in either iteration order of the range table. -/
theorem lsif_shortest_containing_range :
    (∀ (s : Lsif.Span) (p : Lsif.Pos),
      Lsif.contains s p ↔
        ((s.start.line < p.line ∨
            (s.start.line = p.line ∧ s.start.character ≤ p.character)) ∧
         (p.line < s.stop.line ∨
            (p.line = s.stop.line ∧ p.character < s.stop.character)))) ∧
    (∀ (idx : Lsif.LSIFIndex) (uri : String) (pos : Lsif.Pos) (rid : Int),
      Lsif.findBestRange idx uri pos = some rid →
      ∃ did span,
        assocLookup uri idx.docByUri = some did ∧
        (rid, span) ∈ idx.ranges ∧
        assocLookup rid idx.rangeDoc = some did ∧
        Lsif.contains span pos ∧
        (∀ rid' span', (rid', span') ∈ idx.ranges →
          assocLookup rid' idx.rangeDoc = some did →
          Lsif.contains span' pos →
          Lsif.spanLen span ≤ Lsif.spanLen span')) ∧
    (∀ rs : List (Int × Lsif.Span),
      rs = [(2, Lsif.exampleR1), (3, Lsif.exampleR2)] ∨
        rs = [(3, Lsif.exampleR2), (2, Lsif.exampleR1)] →
      Lsif.findBestRange (Lsif.exampleIdx rs) "file:///f" ⟨0, 4⟩ = some 3 ∧
      Lsif.queryDefinition (Lsif.exampleIdx rs) "file:///f" 0 4 =
        Except.ok [("file:///f", Lsif.exampleR2)]) := by
  refine ⟨?_, ?_, ?_⟩
  · intro s p
    exact Iff.rfl
  · intro idx uri pos rid h
    cases hd : assocLookup uri idx.docByUri with
    | none => simp [Lsif.findBestRange, hd] at h
    | some did =>
      simp only [Lsif.findBestRange, hd] at h
      cases hf : idx.ranges.foldl (Lsif.bestStep idx.rangeDoc did pos) none with
      | none => rw [hf] at h; cases h
      | some q =>
        rw [hf] at h
        simp only [Option.map_some'] at h
        obtain ⟨H1, H2, _⟩ := foldl_bestStep_spec idx.rangeDoc did pos
          idx.ranges none q hf
        rcases H1 with ⟨hm, hdoc, hcont⟩ | habs
        · injection h with h
          subst h
          refine ⟨did, q.2, rfl, ?_, hdoc, hcont,
            fun rid' span' hmem hdoc' hcont' =>
              H2 (rid', span') hmem ⟨hdoc', hcont'⟩⟩
          simpa using hm
        · cases habs
  · rintro rs (rfl | rfl) <;> exact ⟨rfl, rfl⟩

/-- Witness for C6: the specification's graph in the first iteration
order. -/
theorem lsif_shortest_containing_range_witness :
    Lsif.findBestRange
        (Lsif.exampleIdx [(2, Lsif.exampleR1), (3, Lsif.exampleR2)])
        "file:///f" ⟨0, 4⟩ = some 3 ∧
    Lsif.queryDefinition
        (Lsif.exampleIdx [(2, Lsif.exampleR1), (3, Lsif.exampleR2)])
        "file:///f" 0 4 = Except.ok [("file:///f", Lsif.exampleR2)] :=
  lsif_shortest_containing_range.2.2 _ (Or.inl rfl)

/-- C1 (the code contradicts the claim): in the approvals model taken from
`spawn_read_loop` and `decide_approval`, a registered key is indeed
delivered exactly once by `decide_approval` (the reply is written
downstream once and a second decision errors), and the 60-second expiry
writes the default `deny` reply downstream; but the timed-out key is NOT
removed from the approvals map, so a subsequent `decide_approval` on it
still returns `Ok(true)` — silently discarding the decision — where the
claim requires it to fail. -/
theorem approval_timeout_key_still_decidable :
    (Codex.decideApproval (Codex.registerApproval ⟨[], []⟩ "agent-1:17")
        "agent-1:17" "allow").1 = Except.ok true ∧
    ((Codex.decideApproval (Codex.registerApproval ⟨[], []⟩ "agent-1:17")
        "agent-1:17" "allow").2).written = [("agent-1:17", "allow")] ∧
    (Codex.decideApproval
        ((Codex.decideApproval (Codex.registerApproval ⟨[], []⟩ "agent-1:17")
          "agent-1:17" "allow").2) "agent-1:17" "deny").1 =
      Except.error "approval key not found: agent-1:17" ∧
    (Codex.timeoutApproval (Codex.registerApproval ⟨[], []⟩ "agent-1:17")
        "agent-1:17").written = [("agent-1:17", "deny")] ∧
    (Codex.decideApproval
        (Codex.timeoutApproval (Codex.registerApproval ⟨[], []⟩ "agent-1:17")
          "agent-1:17") "agent-1:17" "allow").1 = Except.ok true ∧
    ((Codex.decideApproval
        (Codex.timeoutApproval (Codex.registerApproval ⟨[], []⟩ "agent-1:17")
          "agent-1:17") "agent-1:17" "allow").2).written =
      [("agent-1:17", "deny")] := by
  exact ⟨rfl, rfl, rfl, rfl, rfl, rfl⟩

/-- An empty line (carriage returns then a newline) trims to nothing. -/
theorem trimEndCRLF_empty_line (k : Nat) :
    Ls.trimEndCRLF (List.replicate k '\r' ++ ['\n']) = [] := by
  have h : ∀ c ∈ ('\n' :: (List.replicate k '\r').reverse),
      (c = '\r' ∨ c = '\n') = true := by
    intro c hc
    rcases List.mem_cons.mp hc with h1 | h2
    · subst h1; simp
    · rw [List.mem_reverse, List.mem_replicate] at h2
      simp [h2.2]
  simp only [Ls.trimEndCRLF, List.reverse_append, List.reverse_singleton,
    List.singleton_append]
  rw [List.dropWhile_eq_nil_iff.mpr ?_]
  · rfl
  · intro c hc
    have := h c hc
    simpa using this

/-- `readLine` consumes exactly one newline-terminated line. -/
theorem readLine_of_line (a s : List Char) (ha : '\n' ∉ a) :
    Ls.readLine (a ++ '\n' :: s) = (a ++ ['\n'], s) := by
  induction a with
  | nil => simp [Ls.readLine]
  | cons c a ih =>
    have hc : ¬ c = '\n' := by
      intro h; exact ha (h ▸ List.mem_cons_self c a)
    have ha' : '\n' ∉ a := fun h => ha (List.mem_cons_of_mem c h)
    simp [Ls.readLine, hc, ih ha']

/-- Skipping one empty line in the detection loop. -/
theorem readDetectedCore_skip_one (k : Nat) (rest : List Char) :
    Ls.readDetectedCore ((List.replicate k '\r' ++ ['\n']) ++ rest) =
      Ls.readDetectedCore rest := by
  have hs2 : (List.replicate k '\r' ++ ['\n']) ++ rest =
      List.replicate k '\r' ++ '\n' :: rest := by simp
  have hne : List.replicate k '\r' ++ '\n' :: rest ≠ [] := by simp
  have hrl : Ls.readLine (List.replicate k '\r' ++ '\n' :: rest) =
      (List.replicate k '\r' ++ ['\n'], rest) :=
    readLine_of_line _ _ (by simp [List.mem_replicate])
  rw [hs2, Ls.readDetectedCore]
  simp [hne, hrl, trimEndCRLF_empty_line]

/-- Skipping any run of empty lines in the detection loop. -/
theorem readDetectedCore_skip (pre : List (List Char))
    (hpre : ∀ l ∈ pre, ∃ k, l = List.replicate k '\r' ++ ['\n'])
    (s : List Char) :
    Ls.readDetectedCore (pre.flatten ++ s) = Ls.readDetectedCore s := by
  induction pre with
  | nil => simp
  | cons l pre ih =>
    obtain ⟨k, rfl⟩ := hpre l (List.mem_cons_self _ _)
    have h2 := ih (fun l hl => hpre l (List.mem_cons_of_mem _ hl))
    calc Ls.readDetectedCore (((List.replicate k '\r' ++ ['\n']) :: pre).flatten ++ s)
        = Ls.readDetectedCore ((List.replicate k '\r' ++ ['\n']) ++
            (pre.flatten ++ s)) := by simp
      _ = Ls.readDetectedCore (pre.flatten ++ s) := readDetectedCore_skip_one _ _
      _ = Ls.readDetectedCore s := h2

/-- C3: in auto framing preference the first read inspects the first
non-empty line: a line opening (after trimming trailing CR/LF) with a
brace or bracket is itself the message body and the detected mode becomes
newline; any other non-empty line is the first header of a length-prefixed
read and the detected mode becomes length-prefixed.  Once a mode is
detected every subsequent read uses it unchanged, and the write mode in
auto equals the detected read mode, defaulting to length-prefixed before
detection. -/
theorem lsp_auto_framing_detection :
    (∀ (pre : List (List Char)) (line rest : List Char),
      (∀ l ∈ pre, ∃ k, l = List.replicate k '\r' ++ ['\n']) →
      Ls.readLine (line ++ rest) = (line, rest) →
      Ls.trimEndCRLF line ≠ [] →
      ((Ls.trimEndCRLF line).head? = some '{' ∨
        (Ls.trimEndCRLF line).head? = some '[') →
      Ls.readMessage ⟨Ls.FramingPreference.auto, none⟩
          (pre.flatten ++ (line ++ rest)) =
        Except.ok (Ls.trimEndCRLF line,
          ⟨Ls.FramingPreference.auto, some Ls.Framing.newline⟩, rest)) ∧
    (∀ (pre : List (List Char)) (line rest : List Char),
      (∀ l ∈ pre, ∃ k, l = List.replicate k '\r' ++ ['\n']) →
      Ls.readLine (line ++ rest) = (line, rest) →
      Ls.trimEndCRLF line ≠ [] →
      ¬ ((Ls.trimEndCRLF line).head? = some '{' ∨
          (Ls.trimEndCRLF line).head? = some '[') →
      Ls.readMessage ⟨Ls.FramingPreference.auto, none⟩
          (pre.flatten ++ (line ++ rest)) =
        (match Ls.readContentLengthMessage (some line) rest with
         | Except.error e => Except.error e
         | Except.ok (body, r) =>
           Except.ok (body,
             ⟨Ls.FramingPreference.auto, some Ls.Framing.contentLength⟩, r))) ∧
    (∀ (pref : Ls.FramingPreference) (f : Ls.Framing) (s : List Char),
      Ls.readMessage ⟨pref, some f⟩ s =
        (match (match f with
                | Ls.Framing.contentLength => Ls.readContentLengthMessage none s
                | Ls.Framing.newline => Ls.readNewlineMessage none s) with
         | Except.error e => Except.error e
         | Except.ok (body, rest) => Except.ok (body, ⟨pref, some f⟩, rest))) ∧
    (Ls.currentWriteMode Ls.FramingPreference.auto none =
        Ls.Framing.contentLength ∧
      ∀ f, Ls.currentWriteMode Ls.FramingPreference.auto (some f) = f) := by
  have hline_ne : ∀ line : List Char, Ls.trimEndCRLF line ≠ [] → line ≠ [] := by
    intro line h hcontra
    subst hcontra
    exact h rfl
  have hcore : ∀ (line rest : List Char),
      Ls.readLine (line ++ rest) = (line, rest) →
      Ls.trimEndCRLF line ≠ [] →
      Ls.readDetectedCore (line ++ rest) =
        (if (Ls.trimEndCRLF line).head? = some '{' ∨
            (Ls.trimEndCRLF line).head? = some '[' then
          Except.ok ((Ls.trimEndCRLF line, Ls.Framing.newline), rest)
        else
          match Ls.readContentLengthMessage (some line) rest with
          | Except.error e => Except.error e
          | Except.ok (body, r) =>
            Except.ok ((body, Ls.Framing.contentLength), r)) := by
    intro line rest hread htrim
    have hne : line ++ rest ≠ [] := by
      intro h
      exact hline_ne line htrim (List.append_eq_nil.mp h).1
    rw [Ls.readDetectedCore]
    simp only [dif_neg hne, hread, if_neg htrim]
  refine ⟨?_, ?_, ?_, rfl, fun f => rfl⟩
  · intro pre line rest hpre hread htrim hhead
    show (match Ls.readDetectedMessage none (pre.flatten ++ (line ++ rest)) with
      | Except.error e => Except.error e
      | Except.ok ((body, framing), r) =>
        Except.ok (body,
          Ls.MgrFraming.mk Ls.FramingPreference.auto (some framing), r)) = _
    rw [show Ls.readDetectedMessage none (pre.flatten ++ (line ++ rest)) =
        Ls.readDetectedCore (pre.flatten ++ (line ++ rest)) from rfl,
      readDetectedCore_skip pre hpre, hcore line rest hread htrim,
      if_pos hhead]
  · intro pre line rest hpre hread htrim hhead
    show (match Ls.readDetectedMessage none (pre.flatten ++ (line ++ rest)) with
      | Except.error e => Except.error e
      | Except.ok ((body, framing), r) =>
        Except.ok (body,
          Ls.MgrFraming.mk Ls.FramingPreference.auto (some framing), r)) = _
    rw [show Ls.readDetectedMessage none (pre.flatten ++ (line ++ rest)) =
        Ls.readDetectedCore (pre.flatten ++ (line ++ rest)) from rfl,
      readDetectedCore_skip pre hpre, hcore line rest hread htrim,
      if_neg hhead]
    cases Ls.readContentLengthMessage (some line) rest with
    | error e => rfl
    | ok p => rfl
  · intro pref f s
    cases f with
    | contentLength => rfl
    | newline => rfl

/-- Witness for C3: after one empty line, a brace-opening line is detected
as newline framing with that line as the body; a `Content-Length` header
line is detected as length-prefixed framing and the two payload characters
follow the blank line. -/
theorem lsp_auto_framing_detection_witness :
    Ls.readMessage ⟨Ls.FramingPreference.auto, none⟩
        ((['\r', '\n'] ++ (['{', 'x', '}', '\n'] ++ ['r'])) : List Char) =
      Except.ok (['{', 'x', '}'],
        ⟨Ls.FramingPreference.auto, some Ls.Framing.newline⟩, ['r']) ∧
    Ls.readMessage ⟨Ls.FramingPreference.auto, none⟩
        ((['C', 'o', 'n', 't', 'e', 'n', 't', '-', 'L', 'e', 'n', 'g', 't',
           'h', ':', ' ', '2', '\r', '\n'] ++ ['\r', '\n', 'a', 'b']) : List Char) =
      Except.ok (['a', 'b'],
        ⟨Ls.FramingPreference.auto, some Ls.Framing.contentLength⟩, []) := by
  constructor
  · have h := lsp_auto_framing_detection.1 [['\r', '\n']]
      ['{', 'x', '}', '\n'] ['r']
      (fun l hl => ⟨1, by rw [List.mem_singleton] at hl; rw [hl]; rfl⟩)
      (by decide) (by decide) (by decide)
    simpa using h
  · have h := lsp_auto_framing_detection.2.1 []
      ['C', 'o', 'n', 't', 'e', 'n', 't', '-', 'L', 'e', 'n', 'g', 't',
       'h', ':', ' ', '2', '\r', '\n'] ['\r', '\n', 'a', 'b']
      (by intro l hl; cases hl)
      (by decide) (by decide) (by decide)
    have hinit : Ls.parseContentLength
        ['C', 'o', 'n', 't', 'e', 'n', 't', '-', 'L', 'e', 'n', 'g', 't',
         'h', ':', ' ', '2', '\r', '\n'] = some 2 := by decide
    have hloop : Ls.clLoop (some 2) ['\r', '\n', 'a', 'b'] =
        Except.ok (some 2, ['a', 'b']) := by
      rw [Ls.clLoop]
      simp [Ls.readLine]
    have hcl : Ls.readContentLengthMessage
        (some ['C', 'o', 'n', 't', 'e', 'n', 't', '-', 'L', 'e', 'n', 'g',
          't', 'h', ':', ' ', '2', '\r', '\n']) ['\r', '\n', 'a', 'b'] =
        Except.ok (['a', 'b'], []) := by
      simp only [Ls.readContentLengthMessage, Option.some_bind, hinit, hloop]
      rfl
    simpa [hcl] using h

/-- C2: the pool resolves the helper command by strict precedence —
explicit override, then document-URI ownership, then the languageId table,
then the extension table, then the environment default — and fails with
the "no language server registered" error when none applies. -/
theorem lsp_resolve_command_precedence :
    (∀ (cwd : String) (p : Lsp.Pool) (c : String) (uri language : Option String),
      Lsp.resolveCommand cwd p (some c) uri language = Except.ok c) ∧
    (∀ (cwd : String) (p : Lsp.Pool) (uri : String) (language : Option String)
        (cmd : String),
      assocLookup (UrlM.normalizeUriS cwd uri) p.docServers = some cmd →
      Lsp.resolveCommand cwd p none (some uri) language = Except.ok cmd) ∧
    (∀ (cwd : String) (p : Lsp.Pool) (uri : Option String) (lang cmd : String),
      (∀ u, uri = some u →
        assocLookup (UrlM.normalizeUriS cwd u) p.docServers = none) →
      assocLookup (Lsp.asciiLowerS lang) p.langMap = some cmd →
      Lsp.resolveCommand cwd p none uri (some lang) = Except.ok cmd) ∧
    (∀ (cwd : String) (p : Lsp.Pool) (uri : String) (language : Option String)
        (ext cmd : String),
      assocLookup (UrlM.normalizeUriS cwd uri) p.docServers = none →
      (∀ l, language = some l →
        assocLookup (Lsp.asciiLowerS l) p.langMap = none) →
      UrlM.extensionFromUriS (UrlM.normalizeUriS cwd uri) = some ext →
      assocLookup ext p.extMap = some cmd →
      Lsp.resolveCommand cwd p none (some uri) language = Except.ok cmd) ∧
    (∀ (cwd : String) (p : Lsp.Pool) (uri language : Option String),
      (∀ u, uri = some u →
        assocLookup (UrlM.normalizeUriS cwd u) p.docServers = none) →
      (∀ l, language = some l →
        assocLookup (Lsp.asciiLowerS l) p.langMap = none) →
      (∀ u, uri = some u →
        ((UrlM.extensionFromUriS (UrlM.normalizeUriS cwd u)).bind
          (fun e => assocLookup e p.extMap)) = none) →
      ((∀ cmd, p.defaultCmd = some cmd →
          Lsp.resolveCommand cwd p none uri language = Except.ok cmd) ∧
        (p.defaultCmd = none →
          Lsp.resolveCommand cwd p none uri language =
            Except.error Lsp.noServerRegisteredMsg))) := by
  have hbyExt : ∀ (cwd : String) (p : Lsp.Pool) (u : String),
      (match UrlM.extensionFromUriS (UrlM.normalizeUriS cwd u) with
        | some ext => assocLookup ext p.extMap
        | none => none) =
      ((UrlM.extensionFromUriS (UrlM.normalizeUriS cwd u)).bind
        (fun e => assocLookup e p.extMap)) := by
    intro cwd p u
    cases UrlM.extensionFromUriS (UrlM.normalizeUriS cwd u) <;> rfl
  refine ⟨fun cwd p c uri language => rfl, ?_, ?_, ?_, ?_⟩
  · intro cwd p uri language cmd hdoc
    simp [Lsp.resolveCommand, hdoc]
  · intro cwd p uri lang cmd hdoc hlang
    cases uri with
    | none => simp [Lsp.resolveCommand, hlang]
    | some u => simp [Lsp.resolveCommand, hdoc u rfl, hlang]
  · intro cwd p uri language ext cmd hdoc hlang hext hcmd
    cases language with
    | none => simp [Lsp.resolveCommand, hdoc, hext, hcmd]
    | some l => simp [Lsp.resolveCommand, hdoc, hlang l rfl, hext, hcmd]
  · intro cwd p uri language hdoc hlang hext
    have hstep : ∀ (k : Option String),
        k = p.defaultCmd →
        Lsp.resolveCommand cwd p none uri language =
          (match k with
           | some cmd => Except.ok cmd
           | none => Except.error Lsp.noServerRegisteredMsg) := by
      intro k hk
      cases uri with
      | none =>
        cases language with
        | none => simp [Lsp.resolveCommand, ← hk]
        | some l => simp [Lsp.resolveCommand, hlang l rfl, ← hk]
      | some u =>
        have hext' := hext u rfl
        rw [← hbyExt] at hext'
        cases language with
        | none => simp [Lsp.resolveCommand, hdoc u rfl, hext', ← hk]
        | some l =>
          simp [Lsp.resolveCommand, hdoc u rfl, hlang l rfl, hext', ← hk]
    constructor
    · intro cmd hcmd
      simpa [hcmd] using hstep p.defaultCmd rfl
    · intro hnone
      simpa [hnone] using hstep p.defaultCmd rfl

/-- Witness for C2: each precedence level at a concrete input over the
built-in tables. -/
theorem lsp_resolve_command_precedence_witness :
    Lsp.resolveCommand "/cwd" (Lsp.builtinPool (some "default-cmd"))
        (some "clangd") (some "file:///a.py") (some "rust") =
      Except.ok "clangd" ∧
    Lsp.resolveCommand "/cwd"
        { Lsp.builtinPool (some "default-cmd") with
          docServers := [("file:///owned.xyz", "owned-cmd")] }
        none (some "file:///owned.xyz") (some "rust") =
      Except.ok "owned-cmd" ∧
    Lsp.resolveCommand "/cwd" (Lsp.builtinPool (some "default-cmd"))
        none (some "file:///a.py") (some "Rust") =
      Except.ok "rust-analyzer" ∧
    Lsp.resolveCommand "/cwd" (Lsp.builtinPool (some "default-cmd"))
        none (some "file:///a.py") none =
      Except.ok "pylsp" ∧
    Lsp.resolveCommand "/cwd" (Lsp.builtinPool (some "default-cmd"))
        none (some "file:///a.xyz") (some "nolang") =
      Except.ok "default-cmd" ∧
    Lsp.resolveCommand "/cwd" (Lsp.builtinPool none)
        none (some "file:///a.xyz") (some "nolang") =
      Except.error Lsp.noServerRegisteredMsg := by
  refine ⟨lsp_resolve_command_precedence.1 _ _ _ _ _, ?_, ?_, ?_, ?_, ?_⟩
  · exact lsp_resolve_command_precedence.2.1 _ _ _ _ _ (by decide)
  · exact lsp_resolve_command_precedence.2.2.1 _ _ _ _ _
      (by intro u hu; cases hu; decide) (by decide)
  · exact lsp_resolve_command_precedence.2.2.2.1 _ _ _ _ "py" _
      (by decide) (by intro l hl; cases hl) (by decide) (by decide)
  · exact (lsp_resolve_command_precedence.2.2.2.2 _ _ _ _
      (by intro u hu; cases hu; decide) (by intro l hl; cases hl; decide)
      (by intro u hu; cases hu; decide)).1 _ rfl
  · exact (lsp_resolve_command_precedence.2.2.2.2 _ _ _ _
      (by intro u hu; cases hu; decide) (by intro l hl; cases hl; decide)
      (by intro u hu; cases hu; decide)).2 rfl

/-- A tool name outside the catalog reaches the catch-all of
`build_lsp_invocation`. -/
theorem buildLspInvocation_unknown (cwd tool : String)
    (args : List (String × Json)) (serverCmd : Option String)
    (hnot : tool ∉ Lsp.lspToolCatalog) :
    Lsp.buildLspInvocation cwd tool args serverCmd =
      Except.error (Lsp.unsupportedToolError tool) := by
  have hne : ∀ s, s ∈ Lsp.lspToolCatalog → tool ≠ s :=
    fun s hs he => hnot (he ▸ hs)
  have h1 : ¬ (tool = "lsp_hover" ∨ tool = "lsp_definition" ∨
      tool = "lsp_type_definition" ∨ tool = "lsp_implementation" ∨
      tool = "lsp_document_highlight" ∨ tool = "lsp_linked_editing_range" ∨
      tool = "lsp_moniker" ∨ tool = "lsp_prepare_rename" ∨
      tool = "lsp_declaration") := by
    rintro (h | h | h | h | h | h | h | h | h) <;>
      exact hnot (by rw [h]; decide)
  simp only [Lsp.buildLspInvocation, if_neg h1,
    if_neg (hne "lsp_completion" (by decide)),
    if_neg (hne "lsp_signature_help" (by decide)),
    if_neg (hne "lsp_references" (by decide)),
    if_neg (hne "lsp_selection_range" (by decide)),
    if_neg (hne "lsp_folding_range" (by decide)),
    if_neg (hne "lsp_document_symbol" (by decide)),
    if_neg (hne "lsp_workspace_symbol" (by decide)),
    if_neg (hne "lsp_workspace_symbol_resolve" (by decide)),
    if_neg (hne "lsp_rename" (by decide)),
    if_neg (hne "lsp_code_action" (by decide)),
    if_neg (hne "lsp_code_action_resolve" (by decide)),
    if_neg (hne "lsp_completion_item_resolve" (by decide)),
    if_neg (hne "lsp_code_lens" (by decide)),
    if_neg (hne "lsp_code_lens_resolve" (by decide)),
    if_neg (hne "lsp_document_link" (by decide)),
    if_neg (hne "lsp_document_link_resolve" (by decide)),
    if_neg (hne "lsp_document_color" (by decide)),
    if_neg (hne "lsp_color_presentation" (by decide)),
    if_neg (hne "lsp_formatting" (by decide)),
    if_neg (hne "lsp_range_formatting" (by decide)),
    if_neg (hne "lsp_on_type_formatting" (by decide)),
    if_neg (hne "lsp_inline_value" (by decide)),
    if_neg (hne "lsp_inlay_hint" (by decide)),
    if_neg (hne "lsp_inlay_hint_resolve" (by decide)),
    if_neg (hne "lsp_call_hierarchy_prepare" (by decide)),
    if_neg (hne "lsp_call_hierarchy_incoming_calls" (by decide)),
    if_neg (hne "lsp_call_hierarchy_outgoing_calls" (by decide)),
    if_neg (hne "lsp_type_hierarchy_prepare" (by decide)),
    if_neg (hne "lsp_type_hierarchy_supertypes" (by decide)),
    if_neg (hne "lsp_type_hierarchy_subtypes" (by decide)),
    if_neg (hne "lsp_semantic_tokens_full" (by decide)),
    if_neg (hne "lsp_semantic_tokens_full_delta" (by decide)),
    if_neg (hne "lsp_semantic_tokens_range" (by decide)),
    if_neg (hne "lsp_execute_command" (by decide)),
    if_neg (hne "lsp_will_create_files" (by decide)),
    if_neg (hne "lsp_will_rename_files" (by decide)),
    if_neg (hne "lsp_will_delete_files" (by decide)),
    if_neg (hne "lsp_text_document_content" (by decide)),
    if_neg (hne "lsp_text_document_diagnostic" (by decide)),
    if_neg (hne "lsp_workspace_diagnostic" (by decide))]

/-- A tool name outside the palette reaches the catch-all of the DAP
bridge's `handle_structured_call`. -/
theorem handleStructuredCall_unknown (tool : String)
    (args : List (String × Json)) (hnot : tool ∉ Dap.dapCatalog) :
    Dap.handleStructuredCall tool args =
      Except.error (Dap.invalidParams ("Unsupported dap tool: " ++ tool)
        (some (Json.obj [("tool", Json.str tool)]))) := by
  have hne : ∀ s, s ∈ Dap.dapCatalog → tool ≠ s :=
    fun s hs he => hnot (he ▸ hs)
  have h1 : ¬ (tool = "dap_launch" ∨ tool = "dap_attach") := by
    rintro (h | h) <;> exact hnot (by rw [h]; decide)
  simp only [Dap.handleStructuredCall, if_neg h1,
    if_neg (hne "dap_set_breakpoints" (by decide)),
    if_neg (hne "dap_configuration_done" (by decide)),
    if_neg (hne "dap_continue" (by decide)),
    if_neg (hne "dap_next" (by decide)),
    if_neg (hne "dap_step_in" (by decide)),
    if_neg (hne "dap_step_out" (by decide)),
    if_neg (hne "dap_threads" (by decide)),
    if_neg (hne "dap_stack_trace" (by decide)),
    if_neg (hne "dap_scopes" (by decide)),
    if_neg (hne "dap_variables" (by decide)),
    if_neg (hne "dap_evaluate" (by decide)),
    if_neg (hne "dap_disconnect" (by decide))]

/-- C8 counterexample: the claim says an unknown tool fails with an
invalid-parameters error naming the tool.  The LSP bridge rejects the
unknown tool `frobnicate` with code -32601 (`unsupported_tool_error`), not
the invalid-parameters code -32602; the DAP bridge rejects it with a bare
method-not-found error that does not name the tool. -/
theorem unknown_tool_error_not_invalid_params :
    (Lsp.handleWrapperToolsCall "/cwd" (Lsp.builtinPool none) []
        "frobnicate" [] Json.null).1 =
      Except.error (Lsp.unsupportedToolError "frobnicate") ∧
    (Lsp.unsupportedToolError "frobnicate").code = -32601 ∧
    ¬ (Lsp.unsupportedToolError "frobnicate").code = -32602 ∧
    Dap.callToolDispatch "frobnicate" [] = Except.error Dap.methodNotFound ∧
    Dap.methodNotFound.code = -32601 ∧
    Dap.methodNotFound.message = "Method not found" := by
  exact ⟨rfl, rfl, by decide, rfl, rfl, rfl⟩

/-- C8 amended: a tools/call naming a tool outside the bridge's catalog
fails before any downstream work, but not always with an
invalid-parameters error: the LSP bridge answers code -32601
(`Unsupported lsp tool`) with the tool name in the data payload, writing
no frames and leaving the pool unchanged; the DAP bridge answers a bare
method-not-found (-32601) for names without the `dap_` prefix, and
invalid-parameters (-32602) naming the tool for unknown `dap_`-prefixed
names — in every case no downstream request is issued. -/
theorem unknown_tool_rejected_before_downstream :
    (∀ (cwd : String) (p : Lsp.Pool) (fs : List (String × String))
        (name : String) (args : List (String × Json)) (resp : Json),
      Lsp.aliasTool name ∉ Lsp.lspToolCatalog →
      (Lsp.handleWrapperToolsCall cwd p fs name args resp).1 =
        Except.error (Lsp.unsupportedToolError (Lsp.aliasTool name)) ∧
      (Lsp.handleWrapperToolsCall cwd p fs name args resp).2 = p) ∧
    (∀ (name : String) (args : List (String × Json)),
      ¬ strStartsWith name "dap_" →
      Dap.callToolDispatch name args = Except.error Dap.methodNotFound) ∧
    (∀ (name : String) (args : List (String × Json)),
      strStartsWith name "dap_" → name ∉ Dap.dapCatalog →
      Dap.callToolDispatch name args =
        Except.error (Dap.invalidParams ("Unsupported dap tool: " ++ name)
          (some (Json.obj [("tool", Json.str name)])))) := by
  refine ⟨?_, ?_, ?_⟩
  · intro cwd p fs name args resp hnot
    by_cases hpre : strStartsWith (Lsp.aliasTool name) "lsp_"
    · have hb := buildLspInvocation_unknown cwd (Lsp.aliasTool name)
        (assocErase "serverCommand" args)
        ((Json.alookup "serverCommand" args).bind Json.asStr) hnot
      constructor <;>
        simp [Lsp.handleWrapperToolsCall, hpre, hb]
    · constructor <;> simp [Lsp.handleWrapperToolsCall, hpre]
  · intro name args hpre
    simp [Dap.callToolDispatch, hpre]
  · intro name args hpre hnot
    have hinit : name ≠ "dap_initialize" :=
      fun h => hnot (by rw [h]; decide)
    have hcall : name ≠ "dap_call" := fun h => hnot (by rw [h]; decide)
    simp only [Dap.callToolDispatch, hpre, not_true_eq_false, if_neg,
      if_neg hinit, if_neg hcall, handleStructuredCall_unknown name args hnot]
    simp

/-- Witness for C8 amended: the three rejection shapes at concrete
inputs. -/
theorem unknown_tool_rejected_before_downstream_witness :
    ((Lsp.handleWrapperToolsCall "/cwd" (Lsp.builtinPool none) []
        "mystery" [] Json.null).1 =
      Except.error (Lsp.unsupportedToolError "mystery") ∧
     (Lsp.handleWrapperToolsCall "/cwd" (Lsp.builtinPool none) []
        "mystery" [] Json.null).2 = Lsp.builtinPool none) ∧
    Dap.callToolDispatch "mystery" [] = Except.error Dap.methodNotFound ∧
    Dap.callToolDispatch "dap_mystery" [] =
      Except.error (Dap.invalidParams "Unsupported dap tool: dap_mystery"
        (some (Json.obj [("tool", Json.str "dap_mystery")]))) := by
  refine ⟨?_, ?_, ?_⟩
  · exact unknown_tool_rejected_before_downstream.1 "/cwd"
      (Lsp.builtinPool none) [] "mystery" [] Json.null (by decide)
  · exact unknown_tool_rejected_before_downstream.2.1 "mystery" [] (by decide)
  · have h := unknown_tool_rejected_before_downstream.2.2 "dap_mystery" []
      (by decide) (by decide)
    simpa using h

/-- C5: a wrapper request naming a document the pool has not associated
sends exactly two frames in order — a `textDocument/didOpen` notification
carrying the normalized URI, the file's text, version 1, and a languageId
inferred from the extension table falling back to `plaintext`, then the
real request — and associates the document, so a second request on the
same URI sends only the request frame. -/
theorem lsp_auto_open_two_frames (cwd : String) (p : Lsp.Pool)
    (fs : List (String × String)) (method : String) (params : Json)
    (serverCmd : Option String) (uri cmd text : String) (resp resp2 : Json)
    (hfix : UrlM.normalizeUriS cwd uri = uri)
    (hnodoc : assocLookup uri p.docServers = none)
    (hres : Lsp.resolveCommand cwd p serverCmd (some uri) none = Except.ok cmd)
    (hfile : assocLookup (UrlM.pathFromUriS uri) fs = some text)
    (hsize : text.length ≤ Lsp.maxInlineDocBytes) :
    (Lsp.runWrapperInvocation cwd p fs method params serverCmd (some uri)
        resp =
      Except.ok (resp,
        [⟨true, "textDocument/didOpen", Json.obj [("textDocument", Json.obj
           [("uri", Json.str uri),
            ("languageId", Json.str
              (match UrlM.rustPathExtensionS (UrlM.pathFromUriS uri) with
               | some ext => (assocLookup ext p.extLanguageMap).getD "plaintext"
               | none => "plaintext")),
            ("version", Json.num 1), ("text", Json.str text)])]⟩,
         ⟨false, method, params⟩],
        { p with docServers := assocInsert uri cmd p.docServers })) ∧
    (Lsp.runWrapperInvocation cwd
        { p with docServers := assocInsert uri cmd p.docServers }
        fs method params serverCmd (some uri) resp2 =
      Except.ok (resp2, [⟨false, method, params⟩],
        { p with docServers := assocInsert uri cmd p.docServers })) := by
  have hnotbig : ¬ text.length > Lsp.maxInlineDocBytes := not_lt.mpr hsize
  have hopen : Lsp.buildDidOpenParams cwd p fs uri none =
      Except.ok (Json.obj [("textDocument", Json.obj
        [("uri", Json.str uri),
         ("languageId", Json.str
           (match UrlM.rustPathExtensionS (UrlM.pathFromUriS uri) with
            | some ext => (assocLookup ext p.extLanguageMap).getD "plaintext"
            | none => "plaintext")),
         ("version", Json.num 1), ("text", Json.str text)])]) := by
    simp only [Lsp.buildDidOpenParams, hfix, hfile, if_neg hnotbig]
  have hdoc : Lsp.hasDocument cwd p uri = false := by
    simp [Lsp.hasDocument, hfix, hnodoc]
  have hassoc : Lsp.associateDocument cwd p uri cmd =
      { p with docServers := assocInsert uri cmd p.docServers } := by
    simp [Lsp.associateDocument, hfix]
  constructor
  · simp only [Lsp.runWrapperInvocation, hres, hdoc, hopen, hassoc,
      Bool.not_false, if_pos]
    rfl
  · set p' : Lsp.Pool :=
      { p with docServers := assocInsert uri cmd p.docServers } with hp'
    have hdoc' : Lsp.hasDocument cwd p' uri = true := by
      simp [Lsp.hasDocument, hfix, hp', assocInsert, assocLookup]
    have hres' : Lsp.resolveCommand cwd p' serverCmd (some uri) none =
        Except.ok cmd := by
      cases serverCmd with
      | some c =>
        have : Except.ok (ε := String) c = Except.ok cmd := hres
        simpa [Lsp.resolveCommand] using this
      | none =>
        simp [Lsp.resolveCommand, hfix, hp', assocInsert, assocLookup]
    simp only [Lsp.runWrapperInvocation, hres', hdoc', Bool.not_true]
    rfl

/-- Witness for C5: the specification's scenario — `/tmp/b.py` containing
`x=1` and a newline, an unassociated pool with the built-in tables — sends
the didOpen (languageId `python`, version 1) then the definition request,
and only the request the second time. -/
theorem lsp_auto_open_two_frames_witness :
    Lsp.runWrapperInvocation "/cwd" (Lsp.builtinPool none)
        [("/tmp/b.py", "x=1\n")] "textDocument/definition"
        (Json.obj [("textDocument", Json.obj
          [("uri", Json.str "file:///tmp/b.py")]),
          ("position", Json.obj [("line", Json.num 0), ("character", Json.num 0)])])
        none (some "file:///tmp/b.py") (Json.str "reply1") =
      Except.ok (Json.str "reply1",
        [⟨true, "textDocument/didOpen", Json.obj [("textDocument", Json.obj
           [("uri", Json.str "file:///tmp/b.py"),
            ("languageId", Json.str "python"),
            ("version", Json.num 1), ("text", Json.str "x=1\n")])]⟩,
         ⟨false, "textDocument/definition", Json.obj [("textDocument", Json.obj
           [("uri", Json.str "file:///tmp/b.py")]),
           ("position", Json.obj [("line", Json.num 0), ("character", Json.num 0)])]⟩],
        { Lsp.builtinPool none with
          docServers := [("file:///tmp/b.py", "pylsp")] }) ∧
    Lsp.runWrapperInvocation "/cwd"
        { Lsp.builtinPool none with
          docServers := [("file:///tmp/b.py", "pylsp")] }
        [("/tmp/b.py", "x=1\n")] "textDocument/definition"
        (Json.obj [("textDocument", Json.obj
          [("uri", Json.str "file:///tmp/b.py")]),
          ("position", Json.obj [("line", Json.num 0), ("character", Json.num 0)])])
        none (some "file:///tmp/b.py") (Json.str "reply2") =
      Except.ok (Json.str "reply2",
        [⟨false, "textDocument/definition", Json.obj [("textDocument", Json.obj
           [("uri", Json.str "file:///tmp/b.py")]),
           ("position", Json.obj [("line", Json.num 0), ("character", Json.num 0)])]⟩],
        { Lsp.builtinPool none with
          docServers := [("file:///tmp/b.py", "pylsp")] }) := by
  have h := lsp_auto_open_two_frames "/cwd" (Lsp.builtinPool none)
    [("/tmp/b.py", "x=1\n")] "textDocument/definition"
    (Json.obj [("textDocument", Json.obj
      [("uri", Json.str "file:///tmp/b.py")]),
      ("position", Json.obj [("line", Json.num 0), ("character", Json.num 0)])])
    none "file:///tmp/b.py" "pylsp" "x=1\n" (Json.str "reply1") (Json.str "reply2")
    (by decide) (by rfl) (by rfl) (by rfl) (by decide)
  constructor
  · exact h.1.trans (by rfl)
  · exact h.2.trans (by rfl)


/-- Shared helper for the over-limit path: when the wrapper pipeline
reaches `build_did_open_params` on a file over the 2 MiB limit, the call
returns the -32050 tool-failure error wrapping the size message, and the
pool is unchanged. -/
theorem largeFileOutcome (cwd : String) (p : Lsp.Pool)
    (fs : List (String × String)) (rawName : String)
    (rawArgs : List (String × Json)) (resp : Json) (inv : Lsp.LspInvocation)
    (uri text cmd : String)
    (hsw : strStartsWith (Lsp.aliasTool rawName) "lsp_" = true)
    (hinv : Lsp.buildLspInvocation cwd (Lsp.aliasTool rawName)
      (assocErase "serverCommand" rawArgs)
      ((Json.alookup "serverCommand" rawArgs).bind Json.asStr) =
      Except.ok inv)
    (huri : inv.uriHint = some uri)
    (hres : Lsp.resolveCommand cwd p inv.serverCmd (some uri) none =
      Except.ok cmd)
    (hnodoc : assocLookup (UrlM.normalizeUriS cwd uri) p.docServers = none)
    (hfile : assocLookup (UrlM.pathFromUriS (UrlM.normalizeUriS cwd uri)) fs =
      some text)
    (hbig : text.length > Lsp.maxInlineDocBytes) :
    Lsp.handleWrapperToolsCall cwd p fs rawName rawArgs resp =
      (Except.error ⟨-32050,
        Lsp.formatToolErrorMessage (Lsp.aliasTool rawName) (some inv.method)
          (Lsp.docTooLargeMsg (UrlM.normalizeUriS cwd uri) text.length),
        some (Lsp.buildErrorData (Lsp.aliasTool rawName) (some inv.method)
          inv.uriHint inv.serverCmd
          (Lsp.docTooLargeMsg (UrlM.normalizeUriS cwd uri) text.length))⟩,
       p) := by
  have hopen : Lsp.buildDidOpenParams cwd p fs uri none =
      Except.error
        (Lsp.docTooLargeMsg (UrlM.normalizeUriS cwd uri) text.length) := by
    simp only [Lsp.buildDidOpenParams, hfile, if_pos hbig]
  have hdoc : Lsp.hasDocument cwd p uri = false := by
    simp [Lsp.hasDocument, hnodoc]
  have hrun : Lsp.runWrapperInvocation cwd p fs inv.method inv.params
      inv.serverCmd inv.uriHint resp =
      Except.error
        (Lsp.docTooLargeMsg (UrlM.normalizeUriS cwd uri) text.length) := by
    rw [huri, Lsp.runWrapperInvocation, hres, hdoc, hopen]
    rfl
  rw [Lsp.handleWrapperToolsCall, if_neg (not_not_intro hsw), hinv]
  dsimp only
  rw [huri] at hrun ⊢
  rw [hrun]

/-- C4 amended: a tool call that auto-opens a document whose on-disk file
is strictly larger than 2 MiB fails before any downstream work — no frame
is written and no association is added — with the bridge's tool-failure
error (code -32050, not the invalid-parameters code -32602 the claim
names), whose message mentions the 2 MiB size limit. -/
theorem lsp_large_file_refused_before_frames (cwd : String) (p : Lsp.Pool)
    (fs : List (String × String)) (rawName : String)
    (rawArgs : List (String × Json)) (resp : Json) (inv : Lsp.LspInvocation)
    (uri text cmd : String)
    (hsw : strStartsWith (Lsp.aliasTool rawName) "lsp_" = true)
    (hinv : Lsp.buildLspInvocation cwd (Lsp.aliasTool rawName)
      (assocErase "serverCommand" rawArgs)
      ((Json.alookup "serverCommand" rawArgs).bind Json.asStr) =
      Except.ok inv)
    (huri : inv.uriHint = some uri)
    (hres : Lsp.resolveCommand cwd p inv.serverCmd (some uri) none =
      Except.ok cmd)
    (hnodoc : assocLookup (UrlM.normalizeUriS cwd uri) p.docServers = none)
    (hfile : assocLookup (UrlM.pathFromUriS (UrlM.normalizeUriS cwd uri)) fs =
      some text)
    (hbig : text.length > Lsp.maxInlineDocBytes) :
    (Lsp.handleWrapperToolsCall cwd p fs rawName rawArgs resp).1 =
      Except.error ⟨-32050,
        Lsp.formatToolErrorMessage (Lsp.aliasTool rawName) (some inv.method)
          (Lsp.docTooLargeMsg (UrlM.normalizeUriS cwd uri) text.length),
        some (Lsp.buildErrorData (Lsp.aliasTool rawName) (some inv.method)
          inv.uriHint inv.serverCmd
          (Lsp.docTooLargeMsg (UrlM.normalizeUriS cwd uri) text.length))⟩ ∧
    (Lsp.handleWrapperToolsCall cwd p fs rawName rawArgs resp).2 = p ∧
    (∃ x y : String,
      Lsp.docTooLargeMsg (UrlM.normalizeUriS cwd uri) text.length =
        x ++ "2 MiB" ++ y) := by
  have h := largeFileOutcome cwd p fs rawName rawArgs resp inv uri text cmd
    hsw hinv huri hres hnodoc hfile hbig
  refine ⟨by rw [h], by rw [h], ?_⟩
  refine ⟨"Document " ++ UrlM.normalizeUriS cwd uri ++ " is " ++
    toString text.length ++ " bytes; mcp-lsp will not inline files larger than ",
    ". Provide a smaller file or send the content explicitly via didOpen.", ?_⟩
  have ht : " bytes; mcp-lsp will not inline files larger than 2 MiB. Provide a smaller file or send the content explicitly via didOpen." =
      " bytes; mcp-lsp will not inline files larger than " ++ "2 MiB" ++
        ". Provide a smaller file or send the content explicitly via didOpen." := by
    decide
  rw [Lsp.docTooLargeMsg, ht]
  simp [String.append_assoc]

/-- C4 counterexample: on the concrete 3 MiB file `/big.py`, the
`lsp_definition` call is refused with error code -32050 (the bridge's
tool-failure code), not the invalid-parameters code -32602 the claim
names, and the pool is unchanged. -/
theorem lsp_large_file_error_code_not_invalid_params :
    (∃ e : Lsp.ErrorObject,
      (Lsp.handleWrapperToolsCall "/cwd" (Lsp.builtinPool none)
        [("/big.py", String.mk (List.replicate 3145728 'x'))]
        "lsp_definition"
        [("uri", Json.str "/big.py"),
         ("position", Json.obj [("line", Json.num 0), ("character", Json.num 0)])]
        Json.null).1 = Except.error e ∧ e.code = -32050 ∧ ¬ e.code = -32602) ∧
    (Lsp.handleWrapperToolsCall "/cwd" (Lsp.builtinPool none)
      [("/big.py", String.mk (List.replicate 3145728 'x'))]
      "lsp_definition"
      [("uri", Json.str "/big.py"),
       ("position", Json.obj [("line", Json.num 0), ("character", Json.num 0)])]
      Json.null).2 = Lsp.builtinPool none := by
  have hlen : (String.mk (List.replicate 3145728 'x')).length = 3145728 := by
    show (List.replicate 3145728 'x').length = 3145728
    exact List.length_replicate 3145728 'x'
  have hbig : (String.mk (List.replicate 3145728 'x')).length >
      Lsp.maxInlineDocBytes := by
    rw [hlen]; norm_num [Lsp.maxInlineDocBytes]
  have h := largeFileOutcome "/cwd" (Lsp.builtinPool none)
    [("/big.py", String.mk (List.replicate 3145728 'x'))]
    "lsp_definition"
    [("uri", Json.str "/big.py"),
     ("position", Json.obj [("line", Json.num 0), ("character", Json.num 0)])]
    Json.null
    ⟨"textDocument/definition",
      Json.obj [("textDocument", Json.obj [("uri", Json.str "file:///big.py")]),
        ("position", Json.obj [("line", Json.num 0), ("character", Json.num 0)])],
      none, some "file:///big.py"⟩
    "file:///big.py" (String.mk (List.replicate 3145728 'x')) "pylsp"
    (by decide) rfl rfl rfl rfl rfl hbig
  exact ⟨⟨_, (congrArg Prod.fst h).trans rfl, rfl, by decide⟩,
    (congrArg Prod.snd h).trans rfl⟩

theorem lsp_large_file_refused_before_frames_witness :
    (Lsp.handleWrapperToolsCall "/cwd" (Lsp.builtinPool none)
      [("/big.py", String.mk (List.replicate 3145728 'x'))]
      "lsp_definition"
      [("uri", Json.str "/big.py"),
       ("position", Json.obj [("line", Json.num 0), ("character", Json.num 0)])]
      Json.null).1 =
      Except.error ⟨-32050,
        Lsp.formatToolErrorMessage "lsp_definition"
          (some "textDocument/definition")
          (Lsp.docTooLargeMsg (UrlM.normalizeUriS "/cwd" "file:///big.py")
            (String.mk (List.replicate 3145728 'x')).length),
        some (Lsp.buildErrorData "lsp_definition"
          (some "textDocument/definition") (some "file:///big.py") none
          (Lsp.docTooLargeMsg (UrlM.normalizeUriS "/cwd" "file:///big.py")
            (String.mk (List.replicate 3145728 'x')).length))⟩ ∧
    (Lsp.handleWrapperToolsCall "/cwd" (Lsp.builtinPool none)
      [("/big.py", String.mk (List.replicate 3145728 'x'))]
      "lsp_definition"
      [("uri", Json.str "/big.py"),
       ("position", Json.obj [("line", Json.num 0), ("character", Json.num 0)])]
      Json.null).2 = Lsp.builtinPool none ∧
    (∃ x y : String,
      Lsp.docTooLargeMsg (UrlM.normalizeUriS "/cwd" "file:///big.py")
        (String.mk (List.replicate 3145728 'x')).length = x ++ "2 MiB" ++ y) := by
  have hlen : (String.mk (List.replicate 3145728 'x')).length = 3145728 := by
    show (List.replicate 3145728 'x').length = 3145728
    exact List.length_replicate 3145728 'x'
  have hbig : (String.mk (List.replicate 3145728 'x')).length >
      Lsp.maxInlineDocBytes := by
    rw [hlen]; norm_num [Lsp.maxInlineDocBytes]
  exact lsp_large_file_refused_before_frames "/cwd" (Lsp.builtinPool none)
    [("/big.py", String.mk (List.replicate 3145728 'x'))]
    "lsp_definition"
    [("uri", Json.str "/big.py"),
     ("position", Json.obj [("line", Json.num 0), ("character", Json.num 0)])]
    Json.null
    ⟨"textDocument/definition",
      Json.obj [("textDocument", Json.obj [("uri", Json.str "file:///big.py")]),
        ("position", Json.obj [("line", Json.num 0), ("character", Json.num 0)])],
      none, some "file:///big.py"⟩
    "file:///big.py" (String.mk (List.replicate 3145728 'x')) "pylsp"
    (by decide) rfl rfl rfl rfl rfl hbig

/-! ## The url-crate model: canonical file URLs and the parse/serialize round trip -/

namespace UrlM

theorem toNat_ofNat_valid (n : Nat) (h : n < 0xd800) :
    (Char.ofNat n).toNat = n := by
  have h' : n.isValidChar := Or.inl h
  simp [Char.ofNat, h', Char.ofNatAux, Char.toNat, UInt32.toNat]

theorem char_le_iff (a b : Char) : a ≤ b ↔ a.toNat ≤ b.toNat := by
  rw [Char.le_def, UInt32.le_def]
  simp [Char.toNat, UInt32.toNat, BitVec.le_def]

theorem char_toNat_inj (a b : Char) (h : a.toNat = b.toNat) : a = b := by
  have := Char.ofNat_toNat a
  rw [h, Char.ofNat_toNat b] at this
  exact this.symm

theorem lowerc_toNat_of_upper (c : Char) (h : 'A' ≤ c ∧ c ≤ 'Z') :
    (lowerc c).toNat = c.toNat + 32 ∧ 97 ≤ (lowerc c).toNat ∧
      (lowerc c).toNat ≤ 122 := by
  have h1 : 65 ≤ c.toNat := (char_le_iff 'A' c).mp h.1
  have h2 : c.toNat ≤ 90 := (char_le_iff c 'Z').mp h.2
  have hv : c.toNat + 32 < 0xd800 := by omega
  unfold lowerc
  rw [if_pos h, toNat_ofNat_valid _ hv]
  omega

theorem lowerc_eq_of_not_upper (c : Char) (h : ¬ ('A' ≤ c ∧ c ≤ 'Z')) :
    lowerc c = c := by
  unfold lowerc
  rw [if_neg h]

theorem lowerc_idem (c : Char) : lowerc (lowerc c) = lowerc c := by
  by_cases h : 'A' ≤ c ∧ c ≤ 'Z'
  · obtain ⟨_, h97, h122⟩ := lowerc_toNat_of_upper c h
    apply lowerc_eq_of_not_upper
    intro hcon
    have := (char_le_iff (lowerc c) 'Z').mp hcon.2
    have : ('Z' : Char).toNat = 90 := by decide
    omega
  · rw [lowerc_eq_of_not_upper c h, lowerc_eq_of_not_upper c h]


theorem visible_of_lower_alpha (c : Char) (h97 : 97 ≤ c.toNat)
    (h122 : c.toNat ≤ 122) : forbiddenHostChar c = false ∧ lowerc c = c := by
  constructor
  · unfold forbiddenHostChar isCtl
    simp only [decide_eq_false_iff_not]
    intro hcase
    rcases hcase with h | h | h | h | h | h | h | h | h | h | h | h | h | h | h
    · rw [decide_eq_true_eq] at h; omega
    all_goals subst h
    all_goals first
      | exact absurd h97 (by decide)
      | exact absurd h122 (by decide)
  · apply lowerc_eq_of_not_upper
    intro hcon
    have hle := (char_le_iff c 'Z').mp hcon.2
    have hz : ('Z' : Char).toNat = 90 := by decide
    omega

theorem hostChar_lowerc (c : Char) (h : forbiddenHostChar c = false) :
    hostChar (lowerc c) = true := by
  by_cases hu : 'A' ≤ c ∧ c ≤ 'Z'
  · obtain ⟨_, h97, h122⟩ := lowerc_toNat_of_upper c hu
    obtain ⟨hf, hl⟩ := visible_of_lower_alpha (lowerc c) h97 h122
    unfold hostChar
    rw [hf, hl]
    simp
  · rw [lowerc_eq_of_not_upper c hu]
    unfold hostChar
    rw [h, lowerc_eq_of_not_upper c hu]
    simp

theorem visible_of_not_ctl_space (c : Char) (hctl : isCtl c = false)
    (hsp : ¬ c = ' ') : 0x20 < c.toNat := by
  unfold isCtl at hctl
  rw [decide_eq_false_iff_not] at hctl
  have : c.toNat ≠ 32 := fun h => hsp (char_toNat_inj c ' ' (by rw [h]; decide))
  omega


theorem visible_of_not_fragSet (c : Char) (h : fragSet c = false) :
    0x20 < c.toNat := by
  unfold fragSet at h
  rw [decide_eq_false_iff_not] at h
  push_neg at h
  exact visible_of_not_ctl_space c (Bool.not_eq_true _ ▸ h.1) h.2.1

theorem pathSet_false_fragSet (c : Char) (h : pathSet c = false) :
    fragSet c = false := by
  unfold pathSet at h
  rw [decide_eq_false_iff_not] at h
  push_neg at h
  exact Bool.not_eq_true _ ▸ h.1

theorem visible_of_not_querySet (c : Char) (h : querySet c = false) :
    0x20 < c.toNat := by
  unfold querySet at h
  rw [decide_eq_false_iff_not] at h
  push_neg at h
  exact visible_of_not_ctl_space c (Bool.not_eq_true _ ▸ h.1) h.2.1

theorem visible_of_hostChar (c : Char) (h : hostChar c = true) :
    0x20 < c.toNat := by
  unfold hostChar at h
  rw [Bool.and_eq_true, Bool.not_eq_true'] at h
  have hf := h.1
  unfold forbiddenHostChar at hf
  rw [decide_eq_false_iff_not] at hf
  push_neg at hf
  exact visible_of_not_ctl_space c (Bool.not_eq_true _ ▸ hf.1) hf.2.1

theorem segChar_spec (c : Char) (h : segChar c = true) :
    pathSet c = false ∧ ¬ c = '/' ∧ ¬ c = '\\' := by
  unfold segChar at h
  rw [decide_eq_true_eq] at h
  push_neg at h
  exact ⟨Bool.not_eq_true _ ▸ h.1, h.2.1, h.2.2⟩

theorem segChar_intro (c : Char) (h1 : pathSet c = false) (h2 : ¬ c = '/')
    (h3 : ¬ c = '\\') : segChar c = true := by
  unfold segChar
  rw [decide_eq_true_eq]
  push_neg
  exact ⟨by simp [h1], h2, h3⟩

theorem visible_of_segChar (c : Char) (h : segChar c = true) :
    0x20 < c.toNat :=
  visible_of_not_fragSet c (pathSet_false_fragSet c (segChar_spec c h).1)

theorem segChar_hexUpper (n : Nat) (h : n < 16) :
    segChar (hexUpper n) = true := by
  interval_cases n <;> decide

theorem segChar_pct : segChar '%' = true := by decide

theorem pctEncode_eq_self (inSet : Char → Bool) (l : List Char)
    (h : ∀ c ∈ l, inSet c = false) : pctEncode inSet l = l := by
  induction l with
  | nil => rfl
  | cons c rest ih =>
    unfold pctEncode
    rw [h c (List.mem_cons_self c rest), ih (fun d hd => h d (List.mem_cons_of_mem c hd))]
    simp

theorem mem_pctEncode (inSet : Char → Bool) (l : List Char) (c : Char)
    (h : c ∈ pctEncode inSet l) :
    (c ∈ l ∧ inSet c = false) ∨ c = '%' ∨ ∃ n, n < 16 ∧ c = hexUpper n := by
  induction l with
  | nil => exact absurd h (by simp [pctEncode])
  | cons d rest ih =>
    unfold pctEncode at h
    rw [List.mem_append] at h
    rcases h with h | h
    · by_cases hd : inSet d = true
      · rw [if_pos hd] at h
        unfold pctEncodeChar at h
        simp only [List.mem_cons, List.not_mem_nil, or_false] at h
        rcases h with rfl | rfl | rfl
        · exact Or.inr (Or.inl rfl)
        · exact Or.inr (Or.inr ⟨d.toNat / 16 % 16, Nat.mod_lt _ (by omega), rfl⟩)
        · exact Or.inr (Or.inr ⟨d.toNat % 16, Nat.mod_lt _ (by omega), rfl⟩)
      · rw [if_neg hd] at h
        simp only [List.mem_cons, List.not_mem_nil, or_false] at h
        subst h
        exact Or.inl ⟨List.mem_cons_self c rest, Bool.not_eq_true _ ▸ hd⟩
    · rcases ih h with ⟨h1, h2⟩ | h
      · exact Or.inl ⟨List.mem_cons_of_mem d h1, h2⟩
      · exact Or.inr h

theorem pctEncode_eq_of_no_pct (inSet : Char → Bool) (l out : List Char)
    (hnp : ¬ '%' ∈ out) (h : pctEncode inSet l = out) : l = out := by
  induction l generalizing out with
  | nil => exact h ▸ rfl
  | cons c rest ih =>
    unfold pctEncode at h
    by_cases hc : inSet c = true
    · rw [if_pos hc] at h
      unfold pctEncodeChar at h
      rw [← h] at hnp
      exact absurd (by simp) hnp
    · rw [if_neg hc] at h
      cases out with
      | nil => exact absurd h (by simp)
      | cons o os =>
        rw [List.cons_append, List.cons.injEq] at h
        rw [ih os (fun hm => hnp (List.mem_cons_of_mem o hm)) h.2, h.1]

theorem splitFirst_of_not_mem (ch : Char) (l : List Char) (h : ¬ ch ∈ l) :
    splitFirst ch l = (l, none) := by
  induction l with
  | nil => rfl
  | cons c rest ih =>
    unfold splitFirst
    rw [if_neg (fun hc : c = ch => h (hc ▸ List.mem_cons_self c rest)),
      ih (fun hm => h (List.mem_cons_of_mem c hm))]

theorem splitFirst_append_cons (ch : Char) (a b : List Char) (h : ¬ ch ∈ a) :
    splitFirst ch (a ++ ch :: b) = (a, some b) := by
  induction a with
  | nil => simp [splitFirst]
  | cons c rest ih =>
    rw [List.cons_append]
    unfold splitFirst
    rw [if_neg (fun hc : c = ch => h (hc ▸ List.mem_cons_self c rest)),
      ih (fun hm => h (List.mem_cons_of_mem c hm))]

theorem splitSlashUrl_ne_nil (l : List Char) : ¬ splitSlashUrl l = [] := by
  cases l with
  | nil => simp [splitSlashUrl]
  | cons c rest =>
    unfold splitSlashUrl
    by_cases hc : isSlash c = true
    · simp [hc]
    · rw [if_neg hc]
      cases splitSlashUrl rest <;> simp

theorem splitSlashUrl_append (s : List Char) (r : List Char)
    (hs : ∀ c ∈ s, isSlash c = false) (h : List Char) (t : List (List Char))
    (ht2 : splitSlashUrl r = h :: t) :
    splitSlashUrl (s ++ r) = (s ++ h) :: t := by
  induction s with
  | nil => simpa using ht2
  | cons c cs ih =>
    rw [List.cons_append]
    unfold splitSlashUrl
    rw [if_neg (by simp [hs c (List.mem_cons_self c cs)]),
      ih (fun d hd => hs d (List.mem_cons_of_mem c hd))]
    rfl


theorem splitSlashUrl_flatMap (segs : List (List Char)) : ∀ s : List Char,
    (∀ c ∈ s, isSlash c = false) →
    (∀ t ∈ segs, ∀ c ∈ t, isSlash c = false) →
    splitSlashUrl (s ++ segs.flatMap (fun t => '/' :: t)) = s :: segs := by
  induction segs with
  | nil =>
    intro s hs _
    rw [List.flatMap_nil, List.append_nil]
    simpa using splitSlashUrl_append s [] hs [] [] rfl
  | cons t ts ih =>
    intro s hs hsegs
    have hr : splitSlashUrl ('/' :: (t ++ ts.flatMap (fun x => '/' :: x))) =
        [] :: t :: ts := by
      unfold splitSlashUrl
      rw [if_pos (by decide), ih t (hsegs t (List.mem_cons_self t ts))
        (fun x hx => hsegs x (List.mem_cons_of_mem t hx))]
    have happ := splitSlashUrl_append s
      ('/' :: (t ++ ts.flatMap (fun x => '/' :: x))) hs [] (t :: ts) hr
    rw [List.flatMap_cons]
    simpa using happ

theorem normSegsAux_canon (segs : List (List Char)) : ∀ acc,
    (∀ s ∈ segs, segCanon s = true) → normSegsAux acc segs = acc ++ segs := by
  induction segs with
  | nil => intro acc _; simp [normSegsAux]
  | cons s rest ih =>
    intro acc h
    have hsc := h s (List.mem_cons_self s rest)
    unfold segCanon at hsc
    rw [Bool.and_eq_true, Bool.and_eq_true, decide_eq_true_eq,
      decide_eq_true_eq] at hsc
    unfold normSegsAux
    rw [if_neg hsc.1.2, if_neg hsc.1.1]
    rw [pctEncode_eq_self pathSet s
      (fun c hc => (segChar_spec c (List.all_eq_true.mp hsc.2 c hc)).1)]
    rw [ih (acc ++ [s]) (fun x hx => h x (List.mem_cons_of_mem s hx))]
    simp

theorem takeWhile_append_stop (p : Char → Bool) (a : List Char) (b : Char)
    (r : List Char) (ha : ∀ c ∈ a, p c = true) (hb : p b = false) :
    List.takeWhile p (a ++ b :: r) = a ∧
      List.dropWhile p (a ++ b :: r) = b :: r := by
  induction a with
  | nil => simp [List.takeWhile, List.dropWhile, hb]
  | cons c cs ih =>
    obtain ⟨h1, h2⟩ := ih (fun d hd => ha d (List.mem_cons_of_mem c hd))
    rw [List.cons_append]
    constructor
    · simp [List.takeWhile_cons, ha c (List.mem_cons_self c cs), h1]
    · rw [List.dropWhile_cons, ha c (List.mem_cons_self c cs)]
      simpa using h2

theorem dropWhile_eq_self_of_all (p : Char → Bool) (l : List Char)
    (h : ∀ c ∈ l, p c = false) : List.dropWhile p l = l := by
  cases l with
  | nil => rfl
  | cons c cs =>
    rw [List.dropWhile_cons, h c (List.mem_cons_self c cs)]
    simp

theorem preClean_eq_self (l : List Char) (h : ∀ c ∈ l, 0x20 < c.toNat) :
    preClean l = l := by
  unfold preClean
  dsimp only
  have hf : l.filter (fun c => ¬ (c = '\t' ∨ c = '\n' ∨ c = '\r')) = l := by
    rw [List.filter_eq_self]
    intro c hc
    have := h c hc
    simp only [decide_eq_true_eq]
    push_neg
    refine ⟨?_, ?_, ?_⟩ <;>
      exact fun he => by rw [he] at this; exact absurd this (by decide)
  rw [hf]
  have hd1 : List.dropWhile (fun c : Char => decide (c.toNat ≤ 0x20)) l = l :=
    dropWhile_eq_self_of_all _ l (fun c hc => by
      simpa using Nat.not_le_of_lt (h c hc))
  rw [hd1]
  have hd2 : List.dropWhile (fun c : Char => decide (c.toNat ≤ 0x20))
      l.reverse = l.reverse :=
    dropWhile_eq_self_of_all _ l.reverse (fun c hc => by
      simpa using Nat.not_le_of_lt (h c (List.mem_reverse.mp hc)))
  rw [hd2, List.reverse_reverse]

theorem mem_flatMap_slash (segs : List (List Char)) (c : Char)
    (h : c ∈ segs.flatMap (fun t => '/' :: t)) :
    c = '/' ∨ ∃ s ∈ segs, c ∈ s := by
  rw [List.mem_flatMap] at h
  obtain ⟨t, ht, hc⟩ := h
  rcases List.mem_cons.mp hc with rfl | hc
  · exact Or.inl rfl
  · exact Or.inr ⟨t, ht, hc⟩

theorem segCanon_spec (s : List Char) (h : segCanon s = true) :
    ¬ s = ['.'] ∧ ¬ s = ['.', '.'] ∧ ∀ c ∈ s, segChar c = true := by
  unfold segCanon at h
  rw [Bool.and_eq_true, Bool.and_eq_true, decide_eq_true_eq,
    decide_eq_true_eq] at h
  exact ⟨h.1.1, h.1.2, List.all_eq_true.mp h.2⟩

theorem serialize_visible (u : FileUrl) (hu : canonicalFileUrl u = true) :
    ∀ c ∈ serializeUrl u, 0x20 < c.toNat := by
  unfold canonicalFileUrl at hu
  rw [Bool.and_eq_true, Bool.and_eq_true, Bool.and_eq_true, Bool.and_eq_true,
    Bool.and_eq_true] at hu
  obtain ⟨⟨⟨⟨⟨_, hsegs⟩, hhost⟩, _⟩, hq⟩, hf⟩ := hu
  intro c hc
  unfold serializeUrl at hc
  rw [List.append_assoc, List.append_assoc, List.append_assoc,
    List.mem_append] at hc
  rcases hc with hc | hc
  · fin_cases hc <;> decide
  rw [List.mem_append] at hc
  rcases hc with hc | hc
  · exact visible_of_hostChar c (List.all_eq_true.mp hhost c hc)
  rw [List.mem_append] at hc
  rcases hc with hc | hc
  · rcases mem_flatMap_slash u.segments c hc with rfl | ⟨s, hs, hcs⟩
    · decide
    · exact visible_of_segChar c
        ((segCanon_spec s (List.all_eq_true.mp hsegs s hs)).2.2 c hcs)
  rw [List.mem_append] at hc
  rcases hc with hc | hc
  · match hq2 : u.query with
    | none => rw [hq2] at hc; exact absurd hc (by simp)
    | some q =>
      rw [hq2] at hc hq
      rcases List.mem_cons.mp hc with rfl | hc
      · decide
      · have := List.all_eq_true.mp hq c hc
        rw [Bool.not_eq_true'] at this
        exact visible_of_not_querySet c this
  · match hf2 : u.fragment with
    | none => rw [hf2] at hc; exact absurd hc (by simp)
    | some f =>
      rw [hf2] at hc hf
      rcases List.mem_cons.mp hc with rfl | hc
      · decide
      · have := List.all_eq_true.mp hf c hc
        rw [Bool.not_eq_true'] at this
        exact visible_of_not_fragSet c this

theorem segChar_ne_hash (c : Char) (h : segChar c = true) : ¬ c = '#' :=
  fun he => by
    have := (segChar_spec c h).1
    rw [he] at this
    exact absurd this (by decide)

theorem segChar_ne_query (c : Char) (h : segChar c = true) : ¬ c = '?' :=
  fun he => by
    have := (segChar_spec c h).1
    rw [he] at this
    exact absurd this (by decide)

theorem not_hash_mem_flatMap (segs : List (List Char))
    (hsegs : ∀ s ∈ segs, segCanon s = true) :
    ¬ '#' ∈ segs.flatMap (fun t => '/' :: t) := by
  intro hm
  rcases mem_flatMap_slash segs '#' hm with h | ⟨s, hs, hcs⟩
  · exact absurd h (by decide)
  · exact segChar_ne_hash '#' ((segCanon_spec s (hsegs s hs)).2.2 '#' hcs) rfl

theorem not_query_mem_flatMap (segs : List (List Char))
    (hsegs : ∀ s ∈ segs, segCanon s = true) :
    ¬ '?' ∈ segs.flatMap (fun t => '/' :: t) := by
  intro hm
  rcases mem_flatMap_slash segs '?' hm with h | ⟨s, hs, hcs⟩
  · exact absurd h (by decide)
  · exact segChar_ne_query '?' ((segCanon_spec s (hsegs s hs)).2.2 '?' hcs) rfl


theorem parsePathQF_roundtrip (s0 : List Char) (rest : List (List Char))
    (q f : Option (List Char))
    (hsegs : ∀ s ∈ s0 :: rest, segCanon s = true)
    (hq : ∀ q', q = some q' → ∀ c ∈ q', querySet c = false)
    (hf : ∀ f', f = some f' → ∀ c ∈ f', fragSet c = false) :
    parsePathQF ((s0 :: rest).flatMap (fun t => '/' :: t) ++ qPart q ++
      fPart f) = (s0 :: rest, q, f) := by
  have hslash : ∀ s ∈ s0 :: rest, ∀ c ∈ s, isSlash c = false := by
    intro s hs c hc
    have h2 := (segCanon_spec s (hsegs s hs)).2.2 c hc
    obtain ⟨_, h3, h4⟩ := segChar_spec c h2
    unfold isSlash
    rw [decide_eq_false_iff_not]
    push_neg
    exact ⟨h3, h4⟩
  have hnq : ¬ '#' ∈ (s0 :: rest).flatMap (fun t => '/' :: t) ++
      qPart q := by
    rw [List.mem_append]
    push_neg
    refine ⟨not_hash_mem_flatMap _ hsegs, ?_⟩
    cases q with
    | none => simp [qPart]
    | some q' =>
      unfold qPart
      intro hm
      rcases List.mem_cons.mp hm with h | h
      · exact absurd h (by decide)
      · have := hq q' rfl '#' h
        exact absurd this (by decide)
  have hsf : splitFirst '#' ((s0 :: rest).flatMap (fun t => '/' :: t) ++
      qPart q ++ fPart f) =
      ((s0 :: rest).flatMap (fun t => '/' :: t) ++ qPart q, f) := by
    cases f with
    | none =>
      rw [show fPart none = [] from rfl, List.append_nil]
      exact splitFirst_of_not_mem '#' _ hnq
    | some f' =>
      rw [show fPart (some f') = '#' :: f' from rfl]
      exact splitFirst_append_cons '#' _ f' hnq
  have hsq : splitFirst '?' ((s0 :: rest).flatMap (fun t => '/' :: t) ++
      qPart q) =
      ((s0 :: rest).flatMap (fun t => '/' :: t), q) := by
    cases q with
    | none =>
      rw [show qPart none = [] from rfl, List.append_nil]
      exact splitFirst_of_not_mem '?' _ (not_query_mem_flatMap _ hsegs)
    | some q' =>
      rw [show qPart (some q') = '?' :: q' from rfl]
      exact splitFirst_append_cons '?' _ q' (not_query_mem_flatMap _ hsegs)
  have hsplit : splitSlashUrl (s0 ++ rest.flatMap (fun t => '/' :: t)) =
      s0 :: rest :=
    splitSlashUrl_flatMap rest s0
      (hslash s0 (List.mem_cons_self s0 rest))
      (fun t ht c hc => hslash t (List.mem_cons_of_mem s0 ht) c hc)
  have hnorm : normSegsAux [] (s0 :: rest) = s0 :: rest :=
    normSegsAux_canon (s0 :: rest) [] hsegs
  have hfr : ∀ f', f = some f' → pctEncode fragSet f' = f' := by
    intro f' hf'
    exact pctEncode_eq_self fragSet f' (hf f' hf')
  have hqr : ∀ q', q = some q' → pctEncode querySet q' = q' := by
    intro q' hq'
    exact pctEncode_eq_self querySet q' (hq q' hq')
  unfold parsePathQF
  rw [hsf]
  dsimp only
  rw [hsq]
  dsimp only
  rw [List.flatMap_cons, List.cons_append]
  dsimp only
  have hif : (if isSlash '/' = true then s0 ++ rest.flatMap (fun t => '/' :: t)
      else '/' :: (s0 ++ rest.flatMap (fun t => '/' :: t))) =
      s0 ++ rest.flatMap (fun t => '/' :: t) := if_pos (by decide)
  rw [hif, hsplit, hnorm, if_neg (by simp)]
  cases f with
  | none =>
    cases q with
    | none => rfl
    | some q' => simp [hqr q' rfl]
  | some f' =>
    cases q with
    | none => simp [hfr f' rfl]
    | some q' => simp [hfr f' rfl, hqr q' rfl]

theorem serializeUrl_parts (u : FileUrl) :
    serializeUrl u = "file://".toList ++ u.host ++
      u.segments.flatMap (fun t => '/' :: t) ++ qPart u.query ++
      fPart u.fragment := by
  obtain ⟨h, s, q, f⟩ := u
  cases q <;> cases f <;> rfl

theorem hostChar_not_delim (c : Char) (h : hostChar c = true) :
    isSlash c = false ∧ ¬ c = '?' ∧ ¬ c = '#' := by
  unfold hostChar at h
  rw [Bool.and_eq_true, Bool.not_eq_true'] at h
  have hf := h.1
  unfold forbiddenHostChar at hf
  rw [decide_eq_false_iff_not] at hf
  push_neg at hf
  refine ⟨?_, hf.2.2.2.2.2.2.2.1, hf.2.2.1⟩
  unfold isSlash
  rw [decide_eq_false_iff_not]
  push_neg
  exact ⟨hf.2.2.2.1, hf.2.2.2.2.2.2.2.2.2.2.1⟩

theorem parseAuthority_roundtrip (u : FileUrl)
    (hu : canonicalFileUrl u = true) :
    parseAuthority (u.host ++ u.segments.flatMap (fun t => '/' :: t) ++
      qPart u.query ++ fPart u.fragment) = some u := by
  unfold canonicalFileUrl at hu
  rw [Bool.and_eq_true, Bool.and_eq_true, Bool.and_eq_true, Bool.and_eq_true,
    Bool.and_eq_true, decide_eq_true_eq, decide_eq_true_eq] at hu
  obtain ⟨⟨⟨⟨⟨hne, hsegs⟩, hhost⟩, hloc⟩, hq⟩, hf⟩ := hu
  obtain ⟨s0, rest, hcons⟩ : ∃ s0 rest, u.segments = s0 :: rest := by
    cases hs : u.segments with
    | nil => exact absurd hs hne
    | cons a b => exact ⟨a, b, rfl⟩
  have hall := List.all_eq_true.mp hhost
  have hsall := List.all_eq_true.mp hsegs
  have hq' : ∀ q', u.query = some q' → ∀ c ∈ q', querySet c = false := by
    intro q' hq2 c hc
    rw [hq2] at hq
    have h2 := List.all_eq_true.mp hq c hc
    rw [Bool.not_eq_true'] at h2
    exact h2
  have hf' : ∀ f', u.fragment = some f' → ∀ c ∈ f', fragSet c = false := by
    intro f' hf2 c hc
    rw [hf2] at hf
    have h2 := List.all_eq_true.mp hf c hc
    rw [Bool.not_eq_true'] at h2
    exact h2
  have hpqf := parsePathQF_roundtrip s0 rest u.query u.fragment
    (fun s hs => hsall s (by rw [hcons]; exact hs)) hq' hf'
  have hlist : (s0 :: rest).flatMap (fun t => '/' :: t) ++ qPart u.query ++
      fPart u.fragment =
      '/' :: ((s0 ++ rest.flatMap (fun t => '/' :: t)) ++
        (qPart u.query ++ fPart u.fragment)) := by
    simp [List.flatMap_cons, List.append_assoc]
  rw [hlist] at hpqf
  have hsplit := takeWhile_append_stop
    (fun c => decide ¬(isSlash c = true ∨ c = '?' ∨ c = '#')) u.host '/'
    ((s0 ++ rest.flatMap (fun t => '/' :: t)) ++
      (qPart u.query ++ fPart u.fragment))
    (fun c hc => by
      obtain ⟨h1, h2, h3⟩ := hostChar_not_delim c (hall c hc)
      simp [h1, h2, h3])
    (by simp [isSlash])
  have hmap : List.map lowerc u.host = u.host := by
    have := List.map_congr_left (l := u.host) (f := lowerc) (g := id)
      (fun c hc => by
        have h2 := hall c hc
        unfold hostChar at h2
        rw [Bool.and_eq_true, decide_eq_true_eq] at h2
        exact h2.2)
    rw [this, List.map_id]
  have hany : u.host.any forbiddenHostChar = false := by
    rw [List.any_eq_false]
    intro c hc
    have h2 := hall c hc
    unfold hostChar at h2
    rw [Bool.and_eq_true, Bool.not_eq_true'] at h2
    rw [h2.1]
    exact Bool.false_ne_true
  unfold parseAuthority
  dsimp only
  rw [List.append_assoc, List.append_assoc, hcons, List.flatMap_cons,
    List.cons_append, List.cons_append]
  rw [hsplit.1, hsplit.2, hany, if_neg Bool.false_ne_true, hmap,
    if_neg hloc, hpqf]
  dsimp only
  rw [← hcons]

theorem schemeSplit_file (r : List Char) :
    schemeSplit ('f' :: 'i' :: 'l' :: 'e' :: ':' :: r) =
      some ("file".toList, r) := rfl

theorem urlParseFile_serialize (u : FileUrl)
    (hu : canonicalFileUrl u = true) :
    urlParseFile (serializeUrl u) = some u := by
  have hvis := serialize_visible u hu
  have hpc : preClean (serializeUrl u) = serializeUrl u :=
    preClean_eq_self _ hvis
  have hparts := serializeUrl_parts u
  unfold urlParseFile
  dsimp only
  rw [hpc, hparts]
  have hshape : "file://".toList ++ u.host ++
      u.segments.flatMap (fun t => '/' :: t) ++ qPart u.query ++
      fPart u.fragment =
      'f' :: 'i' :: 'l' :: 'e' :: ':' :: ('/' :: '/' ::
        (u.host ++ u.segments.flatMap (fun t => '/' :: t) ++ qPart u.query ++
          fPart u.fragment)) := by
    simp [List.append_assoc]
  rw [hshape, schemeSplit_file]
  dsimp only
  rw [if_neg (by simp)]
  rw [if_pos (by constructor <;> decide)]
  exact parseAuthority_roundtrip u hu

theorem splitSlashUrl_no_slash (l : List Char) :
    ∀ s ∈ splitSlashUrl l, ∀ c ∈ s, isSlash c = false := by
  induction l with
  | nil =>
    intro s hs c hc
    simp only [splitSlashUrl] at hs
    rw [List.mem_singleton] at hs
    subst hs
    exact absurd hc (List.not_mem_nil c)
  | cons d rest ih =>
    intro s hs c hc
    unfold splitSlashUrl at hs
    by_cases hd : isSlash d = true
    · rw [if_pos hd] at hs
      rcases List.mem_cons.mp hs with rfl | hs
      · exact absurd hc (List.not_mem_nil c)
      · exact ih s hs c hc
    · rw [if_neg hd] at hs
      cases hrec : splitSlashUrl rest with
      | nil => exact absurd hrec (splitSlashUrl_ne_nil rest)
      | cons h t =>
        rw [hrec] at hs
        rcases List.mem_cons.mp hs with rfl | hs
        · rcases List.mem_cons.mp hc with rfl | hc
          · rw [Bool.eq_false_iff]
            exact hd
          · exact ih h (hrec ▸ List.mem_cons_self h t) c hc
        · exact ih s (hrec ▸ List.mem_cons_of_mem h hs) c hc

theorem segCanon_empty : segCanon [] = true := by decide

theorem segCanon_pctEncode (s : List Char)
    (hs : ∀ c ∈ s, isSlash c = false)
    (h1 : ¬ s = ['.']) (h2 : ¬ s = ['.', '.']) :
    segCanon (pctEncode pathSet s) = true := by
  unfold segCanon
  rw [Bool.and_eq_true, Bool.and_eq_true, decide_eq_true_eq,
    decide_eq_true_eq]
  refine ⟨⟨?_, ?_⟩, ?_⟩
  · intro he
    exact h1 (pctEncode_eq_of_no_pct pathSet s ['.'] (by decide) he)
  · intro he
    exact h2 (pctEncode_eq_of_no_pct pathSet s ['.', '.'] (by decide) he)
  · rw [List.all_eq_true]
    intro c hc
    rcases mem_pctEncode pathSet s c hc with ⟨hmem, hps⟩ | rfl | ⟨n, hn, rfl⟩
    · have hsl := hs c hmem
      unfold isSlash at hsl
      rw [decide_eq_false_iff_not] at hsl
      push_neg at hsl
      exact segChar_intro c hps hsl.1 hsl.2
    · exact segChar_pct
    · exact segChar_hexUpper n hn

theorem normSegsAux_mem_canon (l : List (List Char)) : ∀ acc,
    (∀ a ∈ acc, segCanon a = true) →
    (∀ s ∈ l, ∀ c ∈ s, isSlash c = false) →
    ∀ a ∈ normSegsAux acc l, segCanon a = true := by
  induction l with
  | nil => intro acc hacc _ a ha; exact hacc a ha
  | cons s rest ih =>
    intro acc hacc hsl a ha
    have hdrop : ∀ b ∈ acc.dropLast, segCanon b = true :=
      fun b hb => hacc b (List.dropLast_subset acc hb)
    unfold normSegsAux at ha
    by_cases h2 : s = ['.', '.']
    · rw [if_pos h2] at ha
      cases rest with
      | nil =>
        rcases List.mem_append.mp ha with hb | hb
        · exact hdrop a hb
        · rw [List.mem_singleton] at hb
          subst hb
          exact segCanon_empty
      | cons r rs =>
        exact ih acc.dropLast hdrop
          (fun t ht c hc => hsl t (List.mem_cons_of_mem s ht) c hc) a ha
    · rw [if_neg h2] at ha
      by_cases h1 : s = ['.']
      · rw [if_pos h1] at ha
        cases rest with
        | nil =>
          rcases List.mem_append.mp ha with hb | hb
          · exact hacc a hb
          · rw [List.mem_singleton] at hb
            subst hb
            exact segCanon_empty
        | cons r rs =>
          exact ih acc hacc
            (fun t ht c hc => hsl t (List.mem_cons_of_mem s ht) c hc) a ha
      · rw [if_neg h1] at ha
        refine ih (acc ++ [pctEncode pathSet s]) ?_
          (fun t ht c hc => hsl t (List.mem_cons_of_mem s ht) c hc) a ha
        intro b hb
        rcases List.mem_append.mp hb with hb | hb
        · exact hacc b hb
        · rw [List.mem_singleton] at hb
          subst hb
          exact segCanon_pctEncode s
            (fun c hc => hsl s (List.mem_cons_self s rest) c hc) h1 h2

theorem pctEncode_chars_not_in (inSet : Char → Bool) (l : List Char)
    (hpct : inSet '%' = false) (hhex : ∀ n, n < 16 → inSet (hexUpper n) = false) :
    ∀ c ∈ pctEncode inSet l, inSet c = false := by
  intro c hc
  rcases mem_pctEncode inSet l c hc with ⟨_, h⟩ | rfl | ⟨n, hn, rfl⟩
  · exact h
  · exact hpct
  · exact hhex n hn

theorem querySet_hexUpper (n : Nat) (h : n < 16) :
    querySet (hexUpper n) = false := by
  interval_cases n <;> decide

theorem fragSet_hexUpper (n : Nat) (h : n < 16) :
    fragSet (hexUpper n) = false := by
  interval_cases n <;> decide

theorem canonicalFileUrl_intro (u : FileUrl) (h1 : ¬ u.segments = [])
    (h2 : ∀ s ∈ u.segments, segCanon s = true)
    (h3 : ∀ c ∈ u.host, hostChar c = true)
    (h4 : ¬ u.host = "localhost".toList)
    (h5 : ∀ q', u.query = some q' → ∀ c ∈ q', querySet c = false)
    (h6 : ∀ f', u.fragment = some f' → ∀ c ∈ f', fragSet c = false) :
    canonicalFileUrl u = true := by
  unfold canonicalFileUrl
  rw [Bool.and_eq_true, Bool.and_eq_true, Bool.and_eq_true, Bool.and_eq_true,
    Bool.and_eq_true, decide_eq_true_eq, decide_eq_true_eq,
    List.all_eq_true, List.all_eq_true]
  refine ⟨⟨⟨⟨⟨h1, h2⟩, h3⟩, h4⟩, ?_⟩, ?_⟩
  · cases hq : u.query with
    | none => rfl
    | some q' =>
      rw [List.all_eq_true]
      intro c hc
      rw [Bool.not_eq_true']
      exact h5 q' hq c hc
  · cases hf : u.fragment with
    | none => rfl
    | some f' =>
      rw [List.all_eq_true]
      intro c hc
      rw [Bool.not_eq_true']
      exact h6 f' hf c hc

theorem parsePathQF_canon (l : List Char) :
    ¬ (parsePathQF l).1 = [] ∧
    (∀ s ∈ (parsePathQF l).1, segCanon s = true) ∧
    (∀ q', (parsePathQF l).2.1 = some q' → ∀ c ∈ q', querySet c = false) ∧
    (∀ f', (parsePathQF l).2.2 = some f' → ∀ c ∈ f', fragSet c = false) := by
  unfold parsePathQF
  dsimp only
  refine ⟨?_, ?_, ?_, ?_⟩
  · by_cases hs : normSegsAux []
        (splitSlashUrl
          (match (splitFirst '?' (splitFirst '#' l).1).1 with
           | c :: rest => if isSlash c = true then rest
             else (splitFirst '?' (splitFirst '#' l).1).1
           | [] => [])) = []
    · rw [if_pos hs]; simp
    · rw [if_neg hs]; exact hs
  · intro s hs
    by_cases h0 : normSegsAux []
        (splitSlashUrl
          (match (splitFirst '?' (splitFirst '#' l).1).1 with
           | c :: rest => if isSlash c = true then rest
             else (splitFirst '?' (splitFirst '#' l).1).1
           | [] => [])) = []
    · rw [if_pos h0] at hs
      rw [List.mem_singleton] at hs
      subst hs
      exact segCanon_empty
    · rw [if_neg h0] at hs
      exact normSegsAux_mem_canon _ [] (by simp)
        (fun t ht c hc => splitSlashUrl_no_slash _ t ht c hc) s hs
  · intro q' hq c hc
    obtain ⟨q0, _, rfl⟩ := Option.map_eq_some'.mp hq
    exact pctEncode_chars_not_in querySet q0 (by decide) querySet_hexUpper c hc
  · intro f' hf c hc
    obtain ⟨f0, _, rfl⟩ := Option.map_eq_some'.mp hf
    exact pctEncode_chars_not_in fragSet f0 (by decide) fragSet_hexUpper c hc

theorem parseAuthority_canon (l : List Char) (u : FileUrl)
    (h : parseAuthority l = some u) : canonicalFileUrl u = true := by
  unfold parseAuthority at h
  dsimp only at h
  by_cases hany : (List.takeWhile
      (fun c => decide ¬(isSlash c = true ∨ c = '?' ∨ c = '#')) l).any
      forbiddenHostChar = true
  · rw [if_pos hany] at h
    exact absurd h (by simp)
  · rw [if_neg hany] at h
    rw [Option.some_inj] at h
    subst h
    have hforb := List.any_eq_false.mp (Bool.not_eq_true _ ▸ hany)
    obtain ⟨hp1, hp2, hp3, hp4⟩ := parsePathQF_canon
      (List.dropWhile (fun c => decide ¬(isSlash c = true ∨ c = '?' ∨ c = '#')) l)
    by_cases hloc : List.map lowerc
        (List.takeWhile (fun c => decide ¬(isSlash c = true ∨ c = '?' ∨ c = '#')) l) =
        "localhost".toList
    · rw [if_pos hloc]
      refine canonicalFileUrl_intro _ hp1 hp2
        (fun c hc => absurd hc (List.not_mem_nil c)) ?_ hp3 hp4
      intro hc
      exact (by decide : ¬([] : List Char) = "localhost".toList) hc
    · rw [if_neg hloc]
      refine canonicalFileUrl_intro _ hp1 hp2 ?_ hloc hp3 hp4
      intro c hc
      rw [List.mem_map] at hc
      obtain ⟨c0, hc0, rfl⟩ := hc
      exact hostChar_lowerc c0 (Bool.not_eq_true _ ▸ hforb c0 hc0)

theorem urlParseFile_canon (l : List Char) (u : FileUrl)
    (h : urlParseFile l = some u) : canonicalFileUrl u = true := by
  unfold urlParseFile at h
  dsimp only at h
  cases hss : schemeSplit (preClean l) with
  | none => rw [hss] at h; exact absurd h (by simp)
  | some p =>
    rw [hss] at h
    obtain ⟨scheme, rest⟩ := p
    dsimp only at h
    by_cases hsc : ¬ scheme = "file".toList
    · rw [if_pos hsc] at h
      exact absurd h (by simp)
    · rw [if_neg hsc] at h
      cases rest with
      | nil =>
        rw [Option.some_inj] at h
        subst h
        obtain ⟨hp1, hp2, hp3, hp4⟩ := parsePathQF_canon []
        refine canonicalFileUrl_intro _ hp1 hp2
          (fun c hc => absurd hc (List.not_mem_nil c)) ?_ hp3 hp4
        intro hc
        exact (by decide : ¬([] : List Char) = "localhost".toList) hc
      | cons c0 rest1 =>
        cases rest1 with
        | nil =>
          rw [Option.some_inj] at h
          subst h
          obtain ⟨hp1, hp2, hp3, hp4⟩ := parsePathQF_canon [c0]
          refine canonicalFileUrl_intro _ hp1 hp2
            (fun c hc => absurd hc (List.not_mem_nil c)) ?_ hp3 hp4
          intro hc
          exact (by decide : ¬([] : List Char) = "localhost".toList) hc
        | cons c1 rest2 =>
          rw [show (match c0 :: c1 :: rest2 with
            | c0 :: c1 :: rest2 =>
              if isSlash c0 = true ∧ isSlash c1 = true then parseAuthority rest2
              else
                some ⟨[], (parsePathQF (c0 :: c1 :: rest2)).1,
                  (parsePathQF (c0 :: c1 :: rest2)).2.1,
                  (parsePathQF (c0 :: c1 :: rest2)).2.2⟩
            | _ =>
              some ⟨[], (parsePathQF (c0 :: c1 :: rest2)).1,
                (parsePathQF (c0 :: c1 :: rest2)).2.1,
                (parsePathQF (c0 :: c1 :: rest2)).2.2⟩) =
            (if isSlash c0 = true ∧ isSlash c1 = true then parseAuthority rest2
             else
               some ⟨[], (parsePathQF (c0 :: c1 :: rest2)).1,
                 (parsePathQF (c0 :: c1 :: rest2)).2.1,
                 (parsePathQF (c0 :: c1 :: rest2)).2.2⟩) from rfl] at h
          by_cases hsl : isSlash c0 = true ∧ isSlash c1 = true
          · rw [if_pos hsl] at h
            exact parseAuthority_canon rest2 u h
          · rw [if_neg hsl] at h
            rw [Option.some_inj] at h
            subst h
            obtain ⟨hp1, hp2, hp3, hp4⟩ := parsePathQF_canon (c0 :: c1 :: rest2)
            refine canonicalFileUrl_intro _ hp1 hp2
              (fun c hc => absurd hc (List.not_mem_nil c)) ?_ hp3 hp4
            intro hc
            exact (by decide : ¬([] : List Char) = "localhost".toList) hc

theorem fileUrlFromPath_absolute (l : List Char) (u : FileUrl)
    (h : fileUrlFromPath l = some u) : pathIsAbsolute l = true := by
  unfold fileUrlFromPath at h
  by_cases ha : pathIsAbsolute l = true
  · exact ha
  · rw [if_neg ha] at h
    exact absurd h (by simp)

theorem normalizeUri_parse (cwd uri : List Char) (u : FileUrl)
    (h : urlParseFile uri = some u) :
    normalizeUri cwd uri = serializeUrl u := by
  unfold normalizeUri
  rw [h]

theorem normalizeUri_serialize_fix (cwd : List Char) (u : FileUrl)
    (hu : canonicalFileUrl u = true) :
    normalizeUri cwd (serializeUrl u) = serializeUrl u := by
  unfold normalizeUri
  rw [urlParseFile_serialize u hu]

theorem normalizeUri_idem_parse (cwd uri : List Char) (u : FileUrl)
    (h : urlParseFile uri = some u) :
    normalizeUri cwd (normalizeUri cwd uri) = normalizeUri cwd uri := by
  rw [normalizeUri_parse cwd uri u h]
  exact normalizeUri_serialize_fix cwd u (urlParseFile_canon uri u h)

theorem normalizeUri_path (cwd x : List Char) (u : FileUrl)
    (h1 : urlParseFile x = none) (h2 : fileUrlFromPath x = some u) :
    normalizeUri cwd x = serializeUrl u := by
  unfold normalizeUri
  rw [h1]
  dsimp only
  rw [if_pos (fileUrlFromPath_absolute x u h2), h2]

theorem normalizeUri_file_pfx (cwd x : List Char) :
    ∃ r, normalizeUri cwd x = "file://".toList ++ r := by
  unfold normalizeUri
  cases hp : urlParseFile x with
  | some u =>
    refine ⟨u.host ++ u.segments.flatMap (fun t => '/' :: t) ++
      qPart u.query ++ fPart u.fragment, ?_⟩
    dsimp only
    rw [serializeUrl_parts u]
    simp [List.append_assoc]
  | none =>
    dsimp only
    cases hf : fileUrlFromPath (if pathIsAbsolute x = true then x
        else joinPath cwd x) with
    | some u =>
      refine ⟨u.host ++ u.segments.flatMap (fun t => '/' :: t) ++
        qPart u.query ++ fPart u.fragment, ?_⟩
      dsimp only
      rw [serializeUrl_parts u]
      simp [List.append_assoc]
    | none =>
      exact ⟨_, rfl⟩

theorem strStartsWith_file (r : List Char) :
    strStartsWith (String.mk ("file://".toList ++ r)) "file://" = true := by
  unfold strStartsWith
  exact ( List.isPrefixOf_iff_prefix).mpr ⟨r, rfl⟩

end UrlM

/-- C9 amended: `normalize_uri` always returns a `file://` string; on any
input that `Url::parse` accepts as a `file:`-scheme URL the result is that
URL's canonical serialization and normalization is idempotent there; and an
absolute filesystem path that does not parse as a URL is turned into the
corresponding `file://` URL by `Url::from_file_path`.  Unqualified
idempotence, and the claim that a `file://` input is returned as-is, are
both false (see the counterexample). -/
theorem uri_normalization_corrected :
    (∀ (cwd x : String) (u : UrlM.FileUrl),
        UrlM.urlParseFile x.toList = some u →
        UrlM.normalizeUriS cwd x = String.mk (UrlM.serializeUrl u) ∧
        UrlM.normalizeUriS cwd (UrlM.normalizeUriS cwd x) =
          UrlM.normalizeUriS cwd x) ∧
    (∀ (cwd x : String) (u : UrlM.FileUrl),
        UrlM.urlParseFile x.toList = none →
        UrlM.fileUrlFromPath x.toList = some u →
        UrlM.normalizeUriS cwd x = String.mk (UrlM.serializeUrl u)) ∧
    (∀ cwd x : String,
        strStartsWith (UrlM.normalizeUriS cwd x) "file://" = true) := by
  refine ⟨fun cwd x u h =>
      ⟨congrArg String.mk (UrlM.normalizeUri_parse cwd.toList x.toList u h),
       congrArg String.mk
         (UrlM.normalizeUri_idem_parse cwd.toList x.toList u h)⟩,
    fun cwd x u h1 h2 =>
      congrArg String.mk (UrlM.normalizeUri_path cwd.toList x.toList u h1 h2),
    fun cwd x => ?_⟩
  obtain ⟨r, hr⟩ := UrlM.normalizeUri_file_pfx cwd.toList x.toList
  show strStartsWith (String.mk (UrlM.normalizeUri cwd.toList x.toList))
    "file://" = true
  rw [hr]
  exact UrlM.strStartsWith_file r

theorem uri_normalization_corrected_witness :
    (UrlM.normalizeUriS "/cwd" "file:///tmp/b.py" =
      String.mk (UrlM.serializeUrl
        ⟨[], [['t','m','p'], ['b','.','p','y']], none, none⟩) ∧
     UrlM.normalizeUriS "/cwd" (UrlM.normalizeUriS "/cwd" "file:///tmp/b.py") =
      UrlM.normalizeUriS "/cwd" "file:///tmp/b.py") ∧
    UrlM.normalizeUriS "/cwd" "/abs/c.py" =
      String.mk (UrlM.serializeUrl
        ⟨[], [['a','b','s'], ['c','.','p','y']], none, none⟩) ∧
    strStartsWith (UrlM.normalizeUriS "/cwd" "rel.py") "file://" = true := by
  obtain ⟨h1, h2, h3⟩ := uri_normalization_corrected
  exact ⟨h1 "/cwd" "file:///tmp/b.py" _ rfl, h2 "/cwd" "/abs/c.py" _ rfl rfl,
    h3 "/cwd" "rel.py"⟩

/-- C9 counterexample: normalization is not idempotent and does not return
`file://` inputs as-is.  The path `/a/../b` maps to `file:///a/../b`
(`from_file_path` keeps dot-dot components), and normalizing that output
pops the dot-dot, giving `file:///b`; the already-`file:`-scheme input
`FILE:///x` is re-serialized to `file:///x`, not returned unchanged. -/
theorem uri_normalization_not_idempotent :
    UrlM.normalizeUriS "/cwd" "/a/../b" = "file:///a/../b" ∧
    UrlM.normalizeUriS "/cwd" (UrlM.normalizeUriS "/cwd" "/a/../b") =
      "file:///b" ∧
    ¬ UrlM.normalizeUriS "/cwd" (UrlM.normalizeUriS "/cwd" "/a/../b") =
        UrlM.normalizeUriS "/cwd" "/a/../b" ∧
    UrlM.normalizeUriS "/cwd" "FILE:///x" = "file:///x" ∧
    ¬ UrlM.normalizeUriS "/cwd" "FILE:///x" = "FILE:///x" := by
  refine ⟨by decide, by decide, by decide, by decide, by decide⟩
